import Mathlib

/-! sociedad-entity-extract: a shallow embedding of `index.js`.

The program reads a stream of JSON documents, files one subdocument per
entity id in the object `docQueue`, then walks `Object.keys(docQueue)`,
asks the search index whether the id is known and writes one JSON line for
every id that is not.

The embedding follows `index.js` function by function:

* `Val` are the values the program handles (JSON values and `undefined`),
  with the JavaScript operations the program applies to them: truthiness,
  string conversion (property keys, `==`), property reads, `JSON.stringify`;
* `DocQueue` is the object `docQueue`: its own properties in creation order,
  read through `Object.prototype` and enumerated by `Object.keys`;
* `ingest` is the `es.mapSync` callback, `parseRazonSocial`, `findEntity`
  and `processQueue` are the functions of those names.

The collaborators that are not part of the repository are parameters:
`JSONPath` (the path evaluator of `jsonpath-plus`) and `search` (the
`client.search` call of the OpenSearch client).

Strings are Lean strings: sequences of Unicode scalar values.  Every
character the program inspects (the comma, the line terminators, the
characters escaped by `JSON.stringify`) is a single UTF-16 code unit, so the
two views agree on all strings without lone surrogates.
-/

namespace SociedadEntityExtract

/-! ## Values -/

/-- The values handled by the program: the JSON values of the input
documents, and `undefined`.  A number is carried by its canonical decimal
form, the string `String(n)` gives (`"0"`, `"12"`, `"1.5"`, `"1e+21"`): the
program never computes with numbers, it only tests them for truthiness and
prints them, and both are functions of that form.  The members of an object
are listed in property enumeration order. -/
inductive Val where
  | undefined
  | null
  | bool (b : Bool)
  | num (repr : String)
  | str (s : String)
  | arr (xs : List Val)
  | obj (kvs : List (String × Val))

/-- The ways a step of the program can fail: a `TypeError` thrown by the
JavaScript runtime, or a rejected `client.search` promise. -/
inductive JSError where
  | typeError
  | rejected
deriving DecidableEq, Repr

instance instDecidableEqExcept {ε α : Type} [DecidableEq ε] [DecidableEq α] :
    DecidableEq (Except ε α)
  | .ok a, .ok b =>
    if h : a = b then isTrue (by rw [h]) else isFalse (by intro h2; cases h2; exact h rfl)
  | .error a, .error b =>
    if h : a = b then isTrue (by rw [h]) else isFalse (by intro h2; cases h2; exact h rfl)
  | .ok _, .error _ => isFalse (by intro h; cases h)
  | .error _, .ok _ => isFalse (by intro h; cases h)

mutual
/-- Decidable equality of values. -/
def Val.decEq : (a b : Val) → Decidable (a = b)
  | .undefined, .undefined => isTrue rfl
  | .null, .null => isTrue rfl
  | .bool a, .bool b =>
    if h : a = b then isTrue (by rw [h]) else isFalse (by intro h2; cases h2; exact h rfl)
  | .num a, .num b =>
    if h : a = b then isTrue (by rw [h]) else isFalse (by intro h2; cases h2; exact h rfl)
  | .str a, .str b =>
    if h : a = b then isTrue (by rw [h]) else isFalse (by intro h2; cases h2; exact h rfl)
  | .arr a, .arr b =>
    match Val.decEqList a b with
    | isTrue h => isTrue (by rw [h])
    | isFalse h => isFalse (by intro h2; cases h2; exact h rfl)
  | .obj a, .obj b =>
    match Val.decEqFields a b with
    | isTrue h => isTrue (by rw [h])
    | isFalse h => isFalse (by intro h2; cases h2; exact h rfl)
  | .undefined, .null | .undefined, .bool _ | .undefined, .num _ | .undefined, .str _
  | .undefined, .arr _ | .undefined, .obj _ => isFalse (by intro h; cases h)
  | .null, .undefined | .null, .bool _ | .null, .num _ | .null, .str _
  | .null, .arr _ | .null, .obj _ => isFalse (by intro h; cases h)
  | .bool _, .undefined | .bool _, .null | .bool _, .num _ | .bool _, .str _
  | .bool _, .arr _ | .bool _, .obj _ => isFalse (by intro h; cases h)
  | .num _, .undefined | .num _, .null | .num _, .bool _ | .num _, .str _
  | .num _, .arr _ | .num _, .obj _ => isFalse (by intro h; cases h)
  | .str _, .undefined | .str _, .null | .str _, .bool _ | .str _, .num _
  | .str _, .arr _ | .str _, .obj _ => isFalse (by intro h; cases h)
  | .arr _, .undefined | .arr _, .null | .arr _, .bool _ | .arr _, .num _
  | .arr _, .str _ | .arr _, .obj _ => isFalse (by intro h; cases h)
  | .obj _, .undefined | .obj _, .null | .obj _, .bool _ | .obj _, .num _
  | .obj _, .str _ | .obj _, .arr _ => isFalse (by intro h; cases h)
termination_by structural a => a
/-- Decidable equality of arrays of values. -/
def Val.decEqList : (a b : List Val) → Decidable (a = b)
  | [], [] => isTrue rfl
  | [], _ :: _ => isFalse (by intro h; cases h)
  | _ :: _, [] => isFalse (by intro h; cases h)
  | x :: xs, y :: ys =>
    match Val.decEq x y, Val.decEqList xs ys with
    | isTrue h1, isTrue h2 => isTrue (by rw [h1, h2])
    | isFalse h1, _ => isFalse (by intro h; cases h; exact h1 rfl)
    | _, isFalse h2 => isFalse (by intro h; cases h; exact h2 rfl)
termination_by structural a => a
/-- Decidable equality of member lists. -/
def Val.decEqFields : (a b : List (String × Val)) → Decidable (a = b)
  | [], [] => isTrue rfl
  | [], _ :: _ => isFalse (by intro h; cases h)
  | _ :: _, [] => isFalse (by intro h; cases h)
  | (k, x) :: xs, (l, y) :: ys =>
    if hk : k = l then
      match Val.decEq x y, Val.decEqFields xs ys with
      | isTrue h1, isTrue h2 => isTrue (by rw [hk, h1, h2])
      | isFalse h1, _ => isFalse (by intro h; cases h; exact h1 rfl)
      | _, isFalse h2 => isFalse (by intro h; cases h; exact h2 rfl)
    else isFalse (by intro h; cases h; exact hk rfl)
termination_by structural a => a
end

instance instDecidableEqVal : DecidableEq Val := Val.decEq

/-- JavaScript truthiness (`ToBoolean`): `undefined`, `null`, `false`, zero
and the empty string are falsy, every array and object is truthy. -/
def truthy : Val → Bool
  | .undefined => false
  | .null => false
  | .bool b => b
  | .num r => r != "0"
  | .str s => s != ""
  | .arr _ => true
  | .obj _ => true

/-- The values on which a property read throws: `undefined` and `null`. -/
def isNullish : Val → Bool
  | .undefined => true
  | .null => true
  | _ => false

/-- Whether a member list has its own member named `k`. -/
def hasKey (k : String) (kvs : List (String × Val)) : Bool :=
  kvs.any (fun kv => kv.1 == k)

/-- The value of the member named `k`, `undefined` when there is none. -/
def lookupKey (k : String) : List (String × Val) → Val
  | [] => .undefined
  | kv :: rest => if kv.1 == k then kv.2 else lookupKey k rest

/-- One element of `Array.prototype.join`: `hd` is the string conversion of
the element `v` (the empty string for `undefined` and `null`), `tl` the join
of the elements `rest` after it. -/
def joinStep (v : Val) (hd : Except JSError String) (rest : List Val)
    (tl : Except JSError String) : Except JSError String :=
  match (if isNullish v then .ok "" else hd) with
  | .error e => .error e
  | .ok a =>
    match rest with
    | [] => .ok a
    | _ :: _ =>
      match tl with
      | .error e => .error e
      | .ok b => .ok (a ++ "," ++ b)

mutual
/-- The string conversion `ToString(v)`, as applied to a property key and by
`==` against a string.  An array converts to the join of its elements.  An
object converts through `Object.prototype.toString` to `"[object Object]"`,
unless it has a member of its own named `toString`: that member is a JSON
value, not a function, so no method yields a primitive and the conversion
throws a `TypeError`. -/
def toStr : Val → Except JSError String
  | .undefined => .ok "undefined"
  | .null => .ok "null"
  | .bool b => .ok (if b then "true" else "false")
  | .num r => .ok r
  | .str s => .ok s
  | .arr xs => joinElems xs
  | .obj kvs => if hasKey "toString" kvs then .error .typeError else .ok "[object Object]"
termination_by structural v => v
/-- The join of the elements with `","`: `Array.prototype.join`. -/
def joinElems : List Val → Except JSError String
  | [] => .ok ""
  | v :: rest => joinStep v (toStr v) rest (joinElems rest)
termination_by structural xs => xs
end

/-- The loose comparison `v == s` for a string `s` that is not a numeric
literal, such as `"INDIVIDUAL"`: a string is compared as is, an array or
object after conversion to a primitive (which may throw), and every other
value (nullish, boolean, or number against `NaN`) differs. -/
def looseEqString (v : Val) (s : String) : Except JSError Bool :=
  match v with
  | .str t => .ok (t == s)
  | .arr xs =>
    match toStr (.arr xs) with
    | .ok t => .ok (t == s)
    | .error e => .error e
  | .obj kvs =>
    match toStr (.obj kvs) with
    | .ok t => .ok (t == s)
    | .error e => .error e
  | _ => .ok false

/-- The property read `v.k` on a value that is not nullish, for the names
this program reads (`name`, `details`, `legalEntityTypeDetail`,
`description`, `address`, `region`, `locality`, `streetAddress`,
`contactPoint`, `telephone`): none of them is defined on the prototypes of
objects, arrays, strings, numbers or booleans, so only an object's own
member is found. -/
def propOf (v : Val) (k : String) : Val :=
  match v with
  | .obj kvs => lookupKey k kvs
  | _ => .undefined

/-- The property read `v.k`: a `TypeError` on `undefined` and `null`. -/
def getProp (v : Val) (k : String) : Except JSError Val :=
  if isNullish v then .error .typeError else .ok (propOf v k)

/-- The optional read `v?.k`: `undefined` on `undefined` and `null`. -/
def optProp (v : Val) (k : String) : Val :=
  if isNullish v then .undefined else propOf v k

/-! ## `JSON.stringify` -/

/-- A hexadecimal digit, lower case. -/
def hexDigit (n : Nat) : Char :=
  if n < 10 then Char.ofNat (48 + n) else Char.ofNat (87 + n)

/-- The escape of one character inside a JSON string (`QuoteJSONString`). -/
def quoteChar (c : Char) : List Char :=
  if c = Char.ofNat 8 then [Char.ofNat 92, 'b']
  else if c = Char.ofNat 9 then [Char.ofNat 92, 't']
  else if c = Char.ofNat 10 then [Char.ofNat 92, 'n']
  else if c = Char.ofNat 12 then [Char.ofNat 92, 'f']
  else if c = Char.ofNat 13 then [Char.ofNat 92, 'r']
  else if c = Char.ofNat 34 then [Char.ofNat 92, Char.ofNat 34]
  else if c = Char.ofNat 92 then [Char.ofNat 92, Char.ofNat 92]
  else if c.toNat < 32 then
    [Char.ofNat 92, 'u', '0', '0', hexDigit (c.toNat / 16), hexDigit (c.toNat % 16)]
  else [c]

/-- A string as a JSON string literal. -/
def quoteJSON (s : String) : String :=
  String.mk (Char.ofNat 34 :: (s.data.flatMap quoteChar ++ [Char.ofNat 34]))

/-- One element of a serialised array: `undefined` prints as `null`. -/
def elemStep (hd : Option String) (rest : List Val) (tl : String) : String :=
  match rest with
  | [] => hd.getD "null"
  | _ :: _ => hd.getD "null" ++ "," ++ tl

/-- One member of a serialised object: a member whose value is `undefined`
is left out. -/
def fieldStep (k : String) (hd : Option String) (tl : List String) : List String :=
  match hd with
  | none => tl
  | some s => (quoteJSON k ++ ":" ++ s) :: tl

mutual
/-- The text `JSON.stringify(v)`, `none` when the result is `undefined`.
The values have no `toJSON` method: they are JSON values. -/
def stringify : Val → Option String
  | .undefined => none
  | .null => some "null"
  | .bool b => some (if b then "true" else "false")
  | .num r => some r
  | .str s => some (quoteJSON s)
  | .arr xs => some ("[" ++ stringifyElems xs ++ "]")
  | .obj kvs => some ("\x7b" ++ ",".intercalate (stringifyFields kvs) ++ "\x7d")
termination_by structural v => v
/-- The serialised elements of an array, separated by commas. -/
def stringifyElems : List Val → String
  | [] => ""
  | v :: rest => elemStep (stringify v) rest (stringifyElems rest)
termination_by structural xs => xs
/-- The serialised members of an object. -/
def stringifyFields : List (String × Val) → List String
  | [] => []
  | kv :: rest => fieldStep kv.1 (stringify kv.2) (stringifyFields rest)
termination_by structural kvs => kvs
end

/-! ## The dedup table `docQueue` -/

/-- The object `docQueue`: its own properties in creation order.  It is
created as `{}`, so its prototype is `Object.prototype`. -/
abbrev DocQueue := List (String × Val)

/-- The property names defined by `Object.prototype`.  Each of them reads as
a function (or, for `__proto__`, as `Object.prototype` itself) on an object
that has no property of its own by that name. -/
def objectPrototypeNames : List String :=
  ["constructor", "__defineGetter__", "__defineSetter__", "hasOwnProperty",
   "__lookupGetter__", "__lookupSetter__", "isPrototypeOf", "propertyIsEnumerable",
   "toString", "valueOf", "__proto__", "toLocaleString"]

/-- The truthiness of the read `docQueue[k]`: that of the own property when
there is one, otherwise whether `Object.prototype` defines `k`. -/
def readTruthy (docQueue : DocQueue) (k : String) : Bool :=
  if hasKey k docQueue then truthy (lookupKey k docQueue)
  else objectPrototypeNames.contains k

/-- The assignment `o[k] = v` on own properties: an existing property keeps
its place, a new one is created last. -/
def setKey (k : String) (v : Val) : List (String × Val) → List (String × Val)
  | [] => [(k, v)]
  | kv :: rest => if kv.1 == k then (k, v) :: rest else kv :: setKey k v rest

/-- The call `Object.assign(target, source)`: every member of `source` is
assigned to `target`, in order. -/
def objectAssign (target source : List (String × Val)) : List (String × Val) :=
  source.foldl (fun o kv => setKey kv.1 kv.2 o) target

/-- The number written by a string of decimal digits. -/
def decimalValue (cs : List Char) : Nat :=
  cs.foldl (fun n c => 10 * n + (c.toNat - 48)) 0

/-- Whether a property name is an array index: the canonical decimal form
(digits only, no leading zero) of an integer below `2 ^ 32 - 1`. -/
def isArrayIndex (k : String) : Bool :=
  match k.data with
  | [] => false
  | c :: cs =>
    (c :: cs).all Char.isDigit && (c != '0' || cs.isEmpty)
      && decide (decimalValue (c :: cs) < 4294967295)

/-- The order of two array indices. -/
def indexLE (a b : String) : Prop :=
  decimalValue a.data ≤ decimalValue b.data

instance instDecidableIndexLE : DecidableRel indexLE :=
  fun a b => inferInstanceAs (Decidable (decimalValue a.data ≤ decimalValue b.data))

instance instIsTotalIndexLE : IsTotal String indexLE :=
  ⟨fun a b => Nat.le_total (decimalValue a.data) (decimalValue b.data)⟩

instance instIsTransIndexLE : IsTrans String indexLE :=
  ⟨fun _ _ _ h1 h2 => Nat.le_trans h1 h2⟩

/-- The array `Object.keys(o)` of an object given by its own properties in
creation order: the array indices in ascending numeric order, then the other
names in creation order. -/
def objectKeys (o : List (String × Val)) : List String :=
  ((o.map Prod.fst).filter isArrayIndex).insertionSort indexLE
    ++ (o.map Prod.fst).filter (fun k => !isArrayIndex k)

/-! ## Ingest: the `es.mapSync` callback -/

/-- The command line options the ingest step reads, over a type `P` of path
expressions. -/
structure Args (P : Type) where
  idSourceField : P
  idSourceDoc : P

/-- The function `getDocField(doc, field)`: the matches of the path in the
document, as returned by `JSONPath`. -/
def getDocField {P : Type} (JSONPath : P → Val → List Val) (doc : Val) (field : P) :
    List Val :=
  JSONPath field doc

/-- The element `xs[0]` of an array: `undefined` when it is empty. -/
def firstOf : List Val → Val
  | [] => .undefined
  | v :: _ => v

/-- The `es.mapSync` callback on one document `obj`.  With a non-empty id
match, the first match is converted to a property key (which may throw);
the first subdocument match is stored under it unless `docQueue` already
reads truthy there. -/
def ingest {P : Type} (JSONPath : P → Val → List Val) (args : Args P)
    (docQueue : DocQueue) (obj : Val) : Except JSError DocQueue :=
  match getDocField JSONPath obj args.idSourceField with
  | [] => .ok docQueue
  | id :: _ =>
    match toStr id with
    | .error e => .error e
    | .ok key =>
      if !readTruthy docQueue key then
        .ok (setKey key (firstOf (getDocField JSONPath obj args.idSourceDoc)) docQueue)
      else .ok docQueue

/-- The callback run over the documents of the stream, in stream order. -/
def ingestAll {P : Type} (JSONPath : P → Val → List Val) (args : Args P) :
    DocQueue → List Val → Except JSError DocQueue
  | docQueue, [] => .ok docQueue
  | docQueue, obj :: rest =>
    match ingest JSONPath args docQueue obj with
    | .error e => .error e
    | .ok q => ingestAll JSONPath args q rest

/-! ## `parseRazonSocial` -/

/-- The items of the regular expression of `parseRazonSocial`: `.*` and a
literal character. -/
inductive RegexItem where
  | anyStar
  | lit (c : Char)
deriving DecidableEq, Repr

/-- The line terminators, which `.` does not match. -/
def isLineTerminator (c : Char) : Bool :=
  c == Char.ofNat 10 || c == Char.ofNat 13 || c == Char.ofNat 8232 || c == Char.ofNat 8233

/-- The item `.*` followed by the rest of the pattern `k`: the rest matches
here, or after one more character that is not a line terminator. -/
def starThen (k : List Char → Bool) : List Char → Bool
  | [] => k []
  | c :: cs => k (c :: cs) || (!isLineTerminator c && starThen k cs)

/-- Whether the pattern matches a prefix of the input. -/
def matchHere : List RegexItem → List Char → Bool
  | [], _ => true
  | .lit c :: items, cs =>
    match cs with
    | [] => false
    | d :: ds => d == c && matchHere items ds
  | .anyStar :: items, cs => starThen (matchHere items) cs

/-- Whether the pattern matches somewhere in the input: the truthiness of
`str.match(re)` for a pattern without anchors. -/
def regexMatches (items : List RegexItem) : List Char → Bool
  | [] => matchHere items []
  | c :: cs => matchHere items (c :: cs) || regexMatches items cs

/-- The regular expression `/.*,.*,.*,.*,.*/`. -/
def razonSocialPattern : List RegexItem :=
  [.anyStar, .lit ',', .anyStar, .lit ',', .anyStar, .lit ',', .anyStar, .lit ',', .anyStar]

/-- The call `str.split(',')`. -/
def splitComma : List Char → List (List Char)
  | [] => [[]]
  | c :: cs =>
    if c = ',' then [] :: splitComma cs
    else
      match splitComma cs with
      | [] => [[c]]
      | seg :: segs => (c :: seg) :: segs

/-- A destructured array element inside a string concatenation: a missing
element is `undefined`. -/
def segText (seg : Option (List Char)) : String :=
  match seg with
  | some cs => String.mk cs
  | none => "undefined"

/-- The term `(x ? sep + x : empty)`: an element that is missing or empty is
falsy. -/
def optionalPart (seg : Option (List Char)) : String :=
  match seg with
  | some (c :: cs) => " " ++ String.mk (c :: cs)
  | _ => ""

/-- The function `parseRazonSocial(str)`.  On a string matched by the
pattern the first five segments are reordered, on any other string the
result is `null`; a value that is not a string has no method `match`, and
the call throws a `TypeError`. -/
def parseRazonSocial (str : Val) : Except JSError Val :=
  match str with
  | .str s =>
    if regexMatches razonSocialPattern s.data then
      let segs := splitComma s.data
      let apellido1 := segs.get? 0
      let apellido2 := segs.get? 1
      let apellido3 := segs.get? 2
      let nombre1 := segs.get? 3
      let nombre2 := segs.get? 4
      .ok (.str (segText nombre1 ++ optionalPart nombre2 ++ " " ++ segText apellido1
        ++ optionalPart apellido2 ++ optionalPart apellido3))
    else .ok .null
  | _ => .error .typeError

/-! ## `findEntity` -/

/-- One hit of a search response: its `_source`, `undefined` when the hit
carries none. -/
structure Hit where
  _source : Val

/-- The part of a search response the program reads, `response.body?.hits?.hits`:
the array of hits, or `none` when a link of that chain is missing. -/
structure SearchResponse where
  hits : Option (List Hit)

/-- The function `findEntity(id)`, over the call `client.search` for the
configured index and field: the `_source` of the first hit, `null` when the
response has no hit; a rejected search rejects. -/
def findEntity (search : String → Except JSError SearchResponse) (id : String) :
    Except JSError Val :=
  match search id with
  | .error e => .error e
  | .ok response =>
    match response.hits with
    | some (hit :: _) => .ok hit._source
    | _ => .ok .null

/-! ## `processQueue` -/

/-- The chain `doc?.details?.legalEntityTypeDetail?.description`. -/
def typeDescription (doc : Val) : Val :=
  optProp (optProp (optProp doc "details") "legalEntityTypeDetail") "description"

/-- The first conditional of the record construction: `tipo_organizacion`,
and `nombre_persona` when the type is loosely equal to `"INDIVIDUAL"`. -/
def addTipo (doc : Val) (newObj : List (String × Val)) :
    Except JSError (List (String × Val)) :=
  if truthy (typeDescription doc) then
    match getProp doc "details" with
    | .error e => .error e
    | .ok details =>
    match getProp details "legalEntityTypeDetail" with
    | .error e => .error e
    | .ok detail =>
    match getProp detail "description" with
    | .error e => .error e
    | .ok description =>
    match looseEqString
      (lookupKey "tipo_organizacion" (objectAssign newObj [("tipo_organizacion", description)]))
      "INDIVIDUAL" with
    | .error e => .error e
    | .ok false => .ok (objectAssign newObj [("tipo_organizacion", description)])
    | .ok true =>
      match parseRazonSocial (lookupKey "nombre_razon_social"
        (objectAssign newObj [("tipo_organizacion", description)])) with
      | .error e => .error e
      | .ok persona =>
        .ok (objectAssign (objectAssign newObj [("tipo_organizacion", description)])
          [("nombre_persona", persona)])
  else .ok newObj

/-- The second conditional: the three address fields. -/
def addAddress (doc : Val) (newObj : List (String × Val)) :
    Except JSError (List (String × Val)) :=
  if truthy (optProp doc "address") then
    match getProp doc "address" with
    | .error e => .error e
    | .ok address =>
    match getProp address "region" with
    | .error e => .error e
    | .ok region =>
    match getProp address "locality" with
    | .error e => .error e
    | .ok locality =>
    match getProp address "streetAddress" with
    | .error e => .error e
    | .ok street =>
      .ok (objectAssign newObj
        [("departamento", region), ("municipio", locality), ("direccion", street)])
  else .ok newObj

/-- The third conditional: the telephone. -/
def addTelefono (doc : Val) (newObj : List (String × Val)) :
    Except JSError (List (String × Val)) :=
  if truthy (optProp (optProp doc "contactPoint") "telephone") then
    match getProp doc "contactPoint" with
    | .error e => .error e
    | .ok contactPoint =>
    match getProp contactPoint "telephone" with
    | .error e => .error e
    | .ok telephone => .ok (objectAssign newObj [("telefono", telephone)])
  else .ok newObj

/-- The object `newObj` built for the id and its stored subdocument `doc`,
as it stands when it is serialised. -/
def buildRecord (id : String) (doc : Val) : Except JSError (List (String × Val)) :=
  match getProp doc "name" with
  | .error e => .error e
  | .ok name =>
    match addTipo doc
      [("nombre_razon_social", name), ("nit", .str id), ("adjudicado", .bool true)] with
    | .error e => .error e
    | .ok o1 =>
      match addAddress doc o1 with
      | .error e => .error e
      | .ok o2 => addTelefono doc o2

/-- The chunk written for a record: `JSON.stringify(newObj)` and a newline. -/
def jsonLine (newObj : List (String × Val)) : String :=
  match stringify (.obj newObj) with
  | some s => s ++ "\n"
  | none => "undefined\n"

/-- The body of the loop of `processQueue` for one id: the record that is
serialised and written, `none` when the id is found in the index. -/
def processEntry (search : String → Except JSError SearchResponse) (id : String)
    (doc : Val) : Except JSError (Option (List (String × Val))) :=
  match findEntity search id with
  | .error e => .error e
  | .ok target =>
    if !truthy target then
      match buildRecord id doc with
      | .error e => .error e
      | .ok newObj => .ok (some newObj)
    else .ok none

/-- The loop of `processQueue` over the remaining keys: the records written,
in order, and the error that stopped the loop, if any. -/
def processKeys (search : String → Except JSError SearchResponse) (docQueue : DocQueue) :
    List String → List (List (String × Val)) × Option JSError
  | [] => ([], none)
  | id :: ids =>
    match processEntry search id (lookupKey id docQueue) with
    | .error e => ([], some e)
    | .ok none => processKeys search docQueue ids
    | .ok (some newObj) =>
      (newObj :: (processKeys search docQueue ids).1, (processKeys search docQueue ids).2)

/-- The records `processQueue()` writes, one for each key of `docQueue` in
the order of `Object.keys`. -/
def writtenRecords (search : String → Except JSError SearchResponse) (docQueue : DocQueue) :
    List (List (String × Val)) :=
  (processKeys search docQueue (objectKeys docQueue)).1

/-- The function `processQueue()`: the chunks written to standard output,
and the error that stopped it, if any. -/
def processQueue (search : String → Except JSError SearchResponse) (docQueue : DocQueue) :
    List String × Option JSError :=
  ((writtenRecords search docQueue).map jsonLine,
    (processKeys search docQueue (objectKeys docQueue)).2)

/-- The whole run on the documents of the input array: ingest, then
`processQueue` once the input has ended. -/
def run {P : Type} (JSONPath : P → Val → List Val) (args : Args P)
    (search : String → Except JSError SearchResponse) (docs : List Val) :
    List String × Option JSError :=
  match ingestAll JSONPath args [] docs with
  | .error e => ([], some e)
  | .ok docQueue => processQueue search docQueue

/-! ## Notions used in the statements -/

/-- A path evaluator for the paths of the form `$.key`, which select the
member `key` of an object: the fragment of the path language the examples
use. -/
def memberPath (path : String) (doc : Val) : List Val :=
  match path.data, doc with
  | '$' :: '.' :: key, .obj kvs =>
    if hasKey (String.mk key) kvs then [lookupKey (String.mk key) kvs] else []
  | _, _ => []

/-- The options `--idSourceField $.id --idSourceDoc $.doc`. -/
def idDocArgs : Args String :=
  { idSourceField := "$.id", idSourceDoc := "$.doc" }

/-- A subdocument of type `INDIVIDUAL` with a name that can be reordered. -/
def individualDoc : Val :=
  .obj [("name", .str "Gomez,Perez,,Juan,Carlos"),
    ("details", .obj [("legalEntityTypeDetail", .obj [("description", .str "INDIVIDUAL")])])]

/-- A subdocument with an address that has no locality, and a telephone. -/
def addressDoc : Val :=
  .obj [("name", .str "Acme"),
    ("address", .obj [("region", .str "R"), ("streetAddress", .str "S")]),
    ("contactPoint", .obj [("telephone", .str "5")])]

/-- A table whose ids are a name and two array indices, stored in that
order. -/
def mixedQueue : DocQueue :=
  [("b", .obj [("name", .str "B")]), ("2", .obj [("name", .str "Two")]),
    ("1", .obj [("name", .str "One")])]

/-- Three documents with the same id: the first has no subdocument, the
second and the third have one. -/
def repeatedDocs : List Val :=
  [.obj [("id", .str "a")],
    .obj [("id", .str "a"), ("doc", .obj [("name", .str "X")])],
    .obj [("id", .str "a"), ("doc", .obj [("name", .str "Y")])]]

/-- A search index that knows no entity. -/
def emptyIndex (_ : String) : Except JSError SearchResponse :=
  .ok { hits := some [] }

/-- The property key under which the callback files a document: the string
conversion of its first id match, when it has one. -/
def docKey {P : Type} (JSONPath : P → Val → List Val) (args : Args P) (d : Val) :
    Option String :=
  match getDocField JSONPath d args.idSourceField with
  | [] => none
  | id :: _ =>
    match toStr id with
    | .ok k => some k
    | .error _ => none

/-- The subdocument of a document: its first subdocument match, `undefined`
when it has none. -/
def docSub {P : Type} (JSONPath : P → Val → List Val) (args : Args P) (d : Val) : Val :=
  firstOf (getDocField JSONPath d args.idSourceDoc)

/-- The first truthy value of a list, its last value when none is truthy. -/
def firstTruthyOrLast : List Val → Val
  | [] => .undefined
  | [v] => v
  | v :: w :: rest => if truthy v then v else firstTruthyOrLast (w :: rest)

/-- Whether a value is a string. -/
def isStr : Val → Bool
  | .str _ => true
  | _ => false

/-- The subdocuments for which the record can be built: not nullish, and,
when the type description is truthy, comparable with a string, with a string
for name whenever the comparison with `"INDIVIDUAL"` holds. -/
def recordable (doc : Val) : Bool :=
  !isNullish doc &&
    (!truthy (typeDescription doc) ||
      match looseEqString (typeDescription doc) "INDIVIDUAL" with
      | .ok true => isStr (propOf doc "name")
      | .ok false => true
      | .error _ => false)

/-- Whether `findEntity` reports no entity for the id: its result is falsy. -/
def notFound (search : String → Except JSError SearchResponse) (id : String) : Bool :=
  match findEntity search id with
  | .ok target => !truthy target
  | .error _ => false

/-- The tables that store no name of `Object.prototype`. -/
def NoPrototypeName (q : DocQueue) : Prop :=
  ∀ k, k ∈ objectPrototypeNames → hasKey k q = false

/-- A substring without line terminator. -/
def OneLine (w : List Char) : Prop :=
  ∀ c ∈ w, isLineTerminator c = false

instance instDecidableOneLine (w : List Char) : Decidable (OneLine w) :=
  inferInstanceAs (Decidable (∀ c ∈ w, isLineTerminator c = false))

/-! # Theorems -/

/-! ## The regular expression and the split -/

theorem oneLine_nil : OneLine [] := by
  intro c hc
  cases hc

theorem oneLine_cons {c : Char} {w : List Char} :
    OneLine (c :: w) ↔ isLineTerminator c = false ∧ OneLine w := by
  simp [OneLine]

theorem oneLine_append {u v : List Char} : OneLine (u ++ v) ↔ OneLine u ∧ OneLine v := by
  simp only [OneLine, List.mem_append]
  constructor
  · intro h
    exact ⟨fun c hc => h c (Or.inl hc), fun c hc => h c (Or.inr hc)⟩
  · rintro ⟨h1, h2⟩ c (hc | hc)
    · exact h1 c hc
    · exact h2 c hc

theorem starThen_iff (k : List Char → Bool) (cs : List Char) :
    starThen k cs = true ↔ ∃ u v, cs = u ++ v ∧ OneLine u ∧ k v = true := by
  induction cs with
  | nil =>
    simp only [starThen]
    constructor
    · intro h
      exact ⟨[], [], rfl, oneLine_nil, h⟩
    · rintro ⟨u, v, h, -, hk⟩
      have hv : v = [] := (List.append_eq_nil.mp h.symm).2
      rw [hv] at hk
      exact hk
  | cons c cs ih =>
    simp only [starThen, Bool.or_eq_true, Bool.and_eq_true, ih, Bool.not_eq_true']
    constructor
    · rintro (h | ⟨hc, u, v, rfl, hu, hk⟩)
      · exact ⟨[], c :: cs, rfl, oneLine_nil, h⟩
      · exact ⟨c :: u, v, rfl, oneLine_cons.mpr ⟨hc, hu⟩, hk⟩
    · rintro ⟨u, v, h, hu, hk⟩
      cases u with
      | nil =>
        left
        rw [List.nil_append] at h
        rw [h]
        exact hk
      | cons d u =>
        right
        rw [List.cons_append] at h
        obtain ⟨rfl, rfl⟩ := List.cons.inj h
        exact ⟨(oneLine_cons.mp hu).1, u, v, rfl, (oneLine_cons.mp hu).2, hk⟩

theorem matchHere_star_lit (c : Char) (items : List RegexItem) (cs : List Char) :
    matchHere (.anyStar :: .lit c :: items) cs = true ↔
      ∃ u v, cs = u ++ c :: v ∧ OneLine u ∧ matchHere items v = true := by
  rw [matchHere, starThen_iff]
  constructor
  · rintro ⟨u, v, rfl, hu, hk⟩
    cases v with
    | nil => simp [matchHere] at hk
    | cons d v =>
      simp only [matchHere, Bool.and_eq_true, beq_iff_eq] at hk
      obtain ⟨rfl, hk⟩ := hk
      exact ⟨u, v, rfl, hu, hk⟩
  · rintro ⟨u, v, rfl, hu, hk⟩
    refine ⟨u, c :: v, rfl, hu, ?_⟩
    simp [matchHere, hk]

theorem matchHere_star_last (cs : List Char) : matchHere [.anyStar] cs = true := by
  rw [matchHere, starThen_iff]
  exact ⟨[], cs, rfl, oneLine_nil, by simp [matchHere]⟩

theorem matchHere_pattern_iff (cs : List Char) :
    matchHere razonSocialPattern cs = true ↔
      ∃ u1 u2 u3 u4 v, cs = u1 ++ ',' :: (u2 ++ ',' :: (u3 ++ ',' :: (u4 ++ ',' :: v))) ∧
        OneLine u1 ∧ OneLine u2 ∧ OneLine u3 ∧ OneLine u4 := by
  unfold razonSocialPattern
  constructor
  · intro h
    obtain ⟨u1, v1, rfl, h1, h⟩ := (matchHere_star_lit _ _ _).mp h
    obtain ⟨u2, v2, rfl, h2, h⟩ := (matchHere_star_lit _ _ _).mp h
    obtain ⟨u3, v3, rfl, h3, h⟩ := (matchHere_star_lit _ _ _).mp h
    obtain ⟨u4, v4, rfl, h4, -⟩ := (matchHere_star_lit _ _ _).mp h
    exact ⟨u1, u2, u3, u4, v4, rfl, h1, h2, h3, h4⟩
  · rintro ⟨u1, u2, u3, u4, v, rfl, h1, h2, h3, h4⟩
    refine (matchHere_star_lit _ _ _).mpr ⟨u1, _, rfl, h1, ?_⟩
    refine (matchHere_star_lit _ _ _).mpr ⟨u2, _, rfl, h2, ?_⟩
    refine (matchHere_star_lit _ _ _).mpr ⟨u3, _, rfl, h3, ?_⟩
    refine (matchHere_star_lit _ _ _).mpr ⟨u4, _, rfl, h4, ?_⟩
    exact matchHere_star_last v

theorem regexMatches_iff (items : List RegexItem) (cs : List Char) :
    regexMatches items cs = true ↔ ∃ pre rest, cs = pre ++ rest ∧ matchHere items rest = true := by
  induction cs with
  | nil =>
    simp only [regexMatches]
    constructor
    · intro h
      exact ⟨[], [], rfl, h⟩
    · rintro ⟨pre, rest, h, hm⟩
      have hv : rest = [] := (List.append_eq_nil.mp h.symm).2
      rw [hv] at hm
      exact hm
  | cons c cs ih =>
    simp only [regexMatches, Bool.or_eq_true, ih]
    constructor
    · rintro (h | ⟨pre, rest, rfl, hm⟩)
      · exact ⟨[], c :: cs, rfl, h⟩
      · exact ⟨c :: pre, rest, rfl, hm⟩
    · rintro ⟨pre, rest, h, hm⟩
      cases pre with
      | nil =>
        left
        rw [List.nil_append] at h
        rw [h]
        exact hm
      | cons d pre =>
        right
        rw [List.cons_append] at h
        obtain ⟨rfl, rfl⟩ := List.cons.inj h
        exact ⟨pre, rest, rfl, hm⟩

theorem count_split (c : Char) (n : Nat) (w : List Char) (h : n + 1 ≤ w.count c) :
    ∃ u v, w = u ++ c :: v ∧ n ≤ v.count c := by
  induction w with
  | nil => simp at h
  | cons d w ih =>
    by_cases hd : d = c
    · subst hd
      rw [List.count_cons_self] at h
      exact ⟨[], w, rfl, by omega⟩
    · rw [List.count_cons_of_ne (Ne.symm hd)] at h
      obtain ⟨u, v, rfl, hv⟩ := ih h
      exact ⟨d :: u, v, rfl, hv⟩

theorem comma_not_lineTerminator : isLineTerminator ',' = false := by decide

/-- The pattern matches exactly the strings that have four commas on one line. -/
theorem regexMatches_pattern_iff (cs : List Char) :
    regexMatches razonSocialPattern cs = true ↔
      ∃ w, w <:+: cs ∧ OneLine w ∧ 4 ≤ w.count ',' := by
  rw [regexMatches_iff]
  constructor
  · rintro ⟨pre, rest, rfl, hm⟩
    obtain ⟨u1, u2, u3, u4, v, rfl, h1, h2, h3, h4⟩ := (matchHere_pattern_iff _).mp hm
    refine ⟨u1 ++ ',' :: (u2 ++ ',' :: (u3 ++ ',' :: (u4 ++ [','])))
      , ⟨pre, v, by simp⟩, ?_, ?_⟩
    · simp only [oneLine_append, oneLine_cons, comma_not_lineTerminator, true_and]
      exact ⟨h1, h2, h3, h4, oneLine_nil⟩
    · simp only [List.count_append, List.count_cons_self, List.count_nil]
      omega
  · rintro ⟨w, ⟨pre, post, rfl⟩, hw, hc⟩
    obtain ⟨u1, w1, rfl, hc1⟩ := count_split ',' 3 w hc
    obtain ⟨u2, w2, rfl, hc2⟩ := count_split ',' 2 w1 hc1
    obtain ⟨u3, w3, rfl, hc3⟩ := count_split ',' 1 w2 hc2
    obtain ⟨u4, w4, rfl, -⟩ := count_split ',' 0 w3 hc3
    simp only [oneLine_append, oneLine_cons] at hw
    refine ⟨pre, u1 ++ ',' :: (u2 ++ ',' :: (u3 ++ ',' :: (u4 ++ ',' :: (w4 ++ post)))),
      by simp, ?_⟩
    exact (matchHere_pattern_iff _).mpr
      ⟨u1, u2, u3, u4, w4 ++ post, rfl, hw.1, hw.2.2.1, hw.2.2.2.2.1, hw.2.2.2.2.2.2.1⟩

theorem regexMatches_four_commas (cs : List Char)
    (h : regexMatches razonSocialPattern cs = true) : 4 ≤ cs.count ',' := by
  obtain ⟨w, hw, -, hc⟩ := (regexMatches_pattern_iff cs).mp h
  exact le_trans hc (hw.sublist.count_le _)

theorem splitComma_ne_nil (cs : List Char) : splitComma cs ≠ [] := by
  cases cs with
  | nil => simp [splitComma]
  | cons c cs =>
    simp only [splitComma]
    split_ifs
    · simp
    · split <;> simp

theorem splitComma_cons (cs seg : List Char) (segs : List (List Char))
    (h : splitComma cs = seg :: segs) :
    ',' ∉ seg ∧ ((segs = [] ∧ cs = seg) ∨ ∃ rest, cs = seg ++ ',' :: rest ∧ splitComma rest = segs) := by
  induction cs generalizing seg segs with
  | nil =>
    simp only [splitComma, List.cons.injEq] at h
    obtain ⟨rfl, rfl⟩ := h
    simp
  | cons c cs ih =>
    simp only [splitComma] at h
    by_cases hc : c = ','
    · rw [if_pos hc] at h
      obtain ⟨rfl, rfl⟩ := List.cons.inj h
      subst hc
      exact ⟨by simp, Or.inr ⟨cs, rfl, rfl⟩⟩
    · rw [if_neg hc] at h
      cases hs : splitComma cs with
      | nil => exact absurd hs (splitComma_ne_nil cs)
      | cons seg1 segs1 =>
        rw [hs] at h
        obtain ⟨rfl, rfl⟩ := List.cons.inj h
        obtain ⟨h1, h2⟩ := ih seg1 segs1 hs
        refine ⟨?_, ?_⟩
        · simp only [List.mem_cons, not_or]
          exact ⟨fun h => hc h.symm, h1⟩
        · rcases h2 with ⟨rfl, rfl⟩ | ⟨rest, rfl, hr⟩
          · exact Or.inl ⟨rfl, rfl⟩
          · exact Or.inr ⟨rest, rfl, hr⟩

theorem splitComma_length (cs : List Char) : (splitComma cs).length = cs.count ',' + 1 := by
  induction cs with
  | nil => simp [splitComma]
  | cons c cs ih =>
    simp only [splitComma]
    by_cases hc : c = ','
    · subst hc
      simp [ih]
    · rw [if_neg hc, List.count_cons_of_ne (Ne.symm hc)]
      cases hs : splitComma cs with
      | nil => exact absurd hs (splitComma_ne_nil cs)
      | cons seg1 segs1 =>
        rw [hs] at ih
        simpa using ih

/-! ## `parseRazonSocial` -/

theorem optionalPart_some (cs : List Char) :
    optionalPart (some cs) = if String.mk cs = "" then "" else " " ++ String.mk cs := by
  cases cs with
  | nil => rfl
  | cons c cs =>
    have h : String.mk (c :: cs) ≠ "" := by
      intro h
      have := congrArg String.data h
      simp at this
    rw [if_neg h]
    rfl

theorem parseRazonSocial_str (s : String) :
    parseRazonSocial (.str s) =
      if regexMatches razonSocialPattern s.data = true then
        .ok (.str (segText ((splitComma s.data).get? 3) ++ optionalPart ((splitComma s.data).get? 4)
          ++ " " ++ segText ((splitComma s.data).get? 0)
          ++ optionalPart ((splitComma s.data).get? 1) ++ optionalPart ((splitComma s.data).get? 2)))
      else .ok .null := rfl

theorem parseRazonSocial_null_iff (s : String) :
    parseRazonSocial (.str s) = .ok .null ↔ regexMatches razonSocialPattern s.data = false := by
  rw [parseRazonSocial_str]
  by_cases h : regexMatches razonSocialPattern s.data = true
  · rw [if_pos h]
    simp [h]
  · rw [if_neg h]
    simpa using h

/-- C6. Whenever `parseRazonSocial` returns a string, the input is made of
five comma-free segments `a1,a2,a3,n1,n2` (followed by nothing or by further
segments, which are ignored), and the result is `n1`, then `n2` after a
space if it is not empty, a space, `a1`, then `a2` and `a3`, each after a
space if it is not empty; and `"Gomez,Perez,,Juan,Carlos"` yields
`"Juan Carlos Gomez Perez"`. -/
theorem parseRazonSocial_reorders :
    (∀ s r : String, parseRazonSocial (.str s) = .ok (.str r) →
      ∃ a1 a2 a3 n1 n2 rest : String,
        (',' ∉ a1.data ∧ ',' ∉ a2.data ∧ ',' ∉ a3.data ∧ ',' ∉ n1.data ∧ ',' ∉ n2.data) ∧
        (rest = "" ∨ rest.data.head? = some ',') ∧
        s = a1 ++ "," ++ a2 ++ "," ++ a3 ++ "," ++ n1 ++ "," ++ n2 ++ rest ∧
        r = n1 ++ (if n2 = "" then "" else " " ++ n2) ++ " " ++ a1
          ++ (if a2 = "" then "" else " " ++ a2) ++ (if a3 = "" then "" else " " ++ a3)) ∧
    parseRazonSocial (.str "Gomez,Perez,,Juan,Carlos") = .ok (.str "Juan Carlos Gomez Perez") := by
  refine ⟨?_, by decide⟩
  intro s r h
  rw [parseRazonSocial_str] at h
  by_cases hm : regexMatches razonSocialPattern s.data = true
  · rw [if_pos hm] at h
    have hlen := splitComma_length s.data
    have hcount := regexMatches_four_commas s.data hm
    obtain ⟨a1, l1, e1⟩ : ∃ a l, splitComma s.data = a :: l := by
      cases hs : splitComma s.data with
      | nil => rw [hs] at hlen; simp at hlen
      | cons a l => exact ⟨a, l, rfl⟩
    rw [e1] at hlen h
    obtain ⟨c1, (⟨rfl, -⟩ | ⟨r1, d1, s1⟩)⟩ := splitComma_cons _ _ _ e1
    · simp at hlen; omega
    obtain ⟨a2, l2, rfl⟩ : ∃ a l, l1 = a :: l := by
      cases l1 with
      | nil => simp at hlen; omega
      | cons a l => exact ⟨a, l, rfl⟩
    obtain ⟨c2, (⟨rfl, -⟩ | ⟨r2, d2, s2⟩)⟩ := splitComma_cons _ _ _ s1
    · simp at hlen; omega
    obtain ⟨a3, l3, rfl⟩ : ∃ a l, l2 = a :: l := by
      cases l2 with
      | nil => simp at hlen; omega
      | cons a l => exact ⟨a, l, rfl⟩
    obtain ⟨c3, (⟨rfl, -⟩ | ⟨r3, d3, s3⟩)⟩ := splitComma_cons _ _ _ s2
    · simp at hlen; omega
    obtain ⟨n1, l4, rfl⟩ : ∃ a l, l3 = a :: l := by
      cases l3 with
      | nil => simp at hlen; omega
      | cons a l => exact ⟨a, l, rfl⟩
    obtain ⟨c4, (⟨rfl, -⟩ | ⟨r4, d4, s4⟩)⟩ := splitComma_cons _ _ _ s3
    · simp at hlen; omega
    obtain ⟨n2, l5, rfl⟩ : ∃ a l, l4 = a :: l := by
      cases l4 with
      | nil => simp at hlen; omega
      | cons a l => exact ⟨a, l, rfl⟩
    obtain ⟨c5, h5⟩ := splitComma_cons _ _ _ s4
    have hrest : ∃ rest : List Char, r4 = n2 ++ rest ∧ (rest = [] ∨ rest.head? = some ',') := by
      rcases h5 with ⟨-, e⟩ | ⟨r5, e, -⟩
      · exact ⟨[], by simp [e], Or.inl rfl⟩
      · exact ⟨',' :: r5, e, Or.inr rfl⟩
    obtain ⟨rest, e5, hr⟩ := hrest
    refine ⟨String.mk a1, String.mk a2, String.mk a3, String.mk n1, String.mk n2,
      String.mk rest, ⟨c1, c2, c3, c4, c5⟩, ?_, ?_, ?_⟩
    · rcases hr with rfl | hr
      · exact Or.inl rfl
      · exact Or.inr hr
    · apply String.ext
      simp only [String.data_append]
      rw [d1, d2, d3, d4, e5]
      simp
    · simp only [List.get?_cons_succ, List.get?_cons_zero, segText, optionalPart_some] at h
      have h2 := Except.ok.inj h
      exact (Val.str.inj h2).symm
  · rw [if_neg hm] at h
    cases Except.ok.inj h

/-- The reordering of C6 at the example of the specification. -/
theorem parseRazonSocial_reorders_witness :
    parseRazonSocial (.str "Gomez,Perez,,Juan,Carlos") = .ok (.str "Juan Carlos Gomez Perez") ∧
    ∃ a1 a2 a3 n1 n2 rest : String,
      (',' ∉ a1.data ∧ ',' ∉ a2.data ∧ ',' ∉ a3.data ∧ ',' ∉ n1.data ∧ ',' ∉ n2.data) ∧
      (rest = "" ∨ rest.data.head? = some ',') ∧
      "Gomez,Perez,,Juan,Carlos" = a1 ++ "," ++ a2 ++ "," ++ a3 ++ "," ++ n1 ++ "," ++ n2 ++ rest ∧
      "Juan Carlos Gomez Perez" = n1 ++ (if n2 = "" then "" else " " ++ n2) ++ " " ++ a1
        ++ (if a2 = "" then "" else " " ++ a2) ++ (if a3 = "" then "" else " " ++ a3) :=
  ⟨by decide, parseRazonSocial_reorders.1 "Gomez,Perez,,Juan,Carlos" "Juan Carlos Gomez Perez"
    (by decide)⟩

/-- C7, as stated, fails: a string with four commas that are not on one line
yields `null`. -/
theorem parseRazonSocial_four_commas_null :
    ¬ (parseRazonSocial (.str ",,\n,,") = .ok .null ↔ (",,\n,,".data.count ',' < 4)) := by
  decide

/-- C7, amended. `parseRazonSocial(str)` is `null` exactly when no stretch
of `str` free of line terminators has four commas, and is a string
otherwise; on a string without line terminator it is `null` exactly when the
string has fewer than four commas; `parseRazonSocial("OnlyOneSegment")` is
`null`. -/
theorem parseRazonSocial_null_iff_no_line_with_four_commas (s : String) :
    (parseRazonSocial (.str s) = .ok .null ↔
      ¬ ∃ w, w <:+: s.data ∧ OneLine w ∧ 4 ≤ w.count ',') ∧
    ((∃ w, w <:+: s.data ∧ OneLine w ∧ 4 ≤ w.count ',') →
      ∃ r, parseRazonSocial (.str s) = .ok (.str r)) ∧
    (OneLine s.data → (parseRazonSocial (.str s) = .ok .null ↔ s.data.count ',' < 4)) ∧
    parseRazonSocial (.str "OnlyOneSegment") = .ok .null := by
  have key : parseRazonSocial (.str s) = .ok .null ↔
      ¬ ∃ w, w <:+: s.data ∧ OneLine w ∧ 4 ≤ w.count ',' := by
    rw [parseRazonSocial_null_iff, ← regexMatches_pattern_iff]
    simp
  refine ⟨key, ?_, ?_, by decide⟩
  · intro hw
    have hm := (regexMatches_pattern_iff s.data).mpr hw
    rw [parseRazonSocial_str, if_pos hm]
    exact ⟨_, rfl⟩
  · intro hline
    rw [key]
    constructor
    · intro h
      by_contra hc
      exact h ⟨s.data, List.infix_refl _, hline, by omega⟩
    · rintro h ⟨w, hw, -, hc⟩
      have := hw.sublist.count_le ','
      omega

/-- The amended C7 on a one-line string with four commas. -/
theorem parseRazonSocial_null_iff_no_line_with_four_commas_witness :
    OneLine "a,b,c,d,e".data ∧
    (parseRazonSocial (.str "a,b,c,d,e") = .ok .null ↔ "a,b,c,d,e".data.count ',' < 4) :=
  ⟨by decide, (parseRazonSocial_null_iff_no_line_with_four_commas "a,b,c,d,e").2.2.1 (by decide)⟩

/-! ## Property reads and assignments -/

theorem truthy_not_nullish {v : Val} (h : truthy v = true) : isNullish v = false := by
  cases v <;> simp_all [truthy, isNullish]

theorem getProp_of_not_nullish {v : Val} (k : String) (h : isNullish v = false) :
    getProp v k = .ok (propOf v k) := by
  simp [getProp, h]

theorem getProp_of_optProp {v : Val} {k : String} (h : isNullish (optProp v k) = false) :
    getProp v k = .ok (optProp v k) := by
  by_cases hv : isNullish v = true
  · unfold optProp at h
    rw [if_pos hv] at h
    cases h
  · simp [getProp, optProp, hv]

theorem not_nullish_of_optProp {v : Val} {k : String} (h : isNullish (optProp v k) = false) :
    isNullish v = false := by
  by_cases hv : isNullish v = true
  · unfold optProp at h
    rw [if_pos hv] at h
    cases h
  · simpa using hv

theorem hasKey_nil (k : String) : hasKey k [] = false := rfl

theorem hasKey_cons (k : String) (kv : String × Val) (o : List (String × Val)) :
    hasKey k (kv :: o) = (kv.1 == k || hasKey k o) := by
  simp [hasKey]

theorem lookupKey_nil (k : String) : lookupKey k [] = .undefined := rfl

theorem lookupKey_cons (k : String) (kv : String × Val) (o : List (String × Val)) :
    lookupKey k (kv :: o) = if kv.1 == k then kv.2 else lookupKey k o := rfl

theorem hasKey_setKey (k k1 : String) (v : Val) (o : List (String × Val)) :
    hasKey k (setKey k1 v o) = (k1 == k || hasKey k o) := by
  induction o with
  | nil => simp [setKey, hasKey]
  | cons kv o ih =>
    simp only [setKey]
    by_cases h : (kv.1 == k1) = true
    · rw [if_pos h]
      have h1 : kv.1 = k1 := by simpa using h
      simp [hasKey_cons, h1]
    · rw [if_neg h, hasKey_cons, ih, hasKey_cons]
      cases hk : (kv.1 == k) <;> cases hk1 : (k1 == k) <;> simp

theorem lookupKey_setKey (k k1 : String) (v : Val) (o : List (String × Val)) :
    lookupKey k (setKey k1 v o) = if k1 == k then v else lookupKey k o := by
  induction o with
  | nil => simp [setKey, lookupKey]
  | cons kv o ih =>
    simp only [setKey]
    by_cases h : (kv.1 == k1) = true
    · rw [if_pos h]
      have h1 : kv.1 = k1 := by simpa using h
      by_cases hk : (k1 == k) = true
      · simp [lookupKey_cons, hk]
      · simp [lookupKey_cons, hk, h1]
    · rw [if_neg h, lookupKey_cons, ih, lookupKey_cons]
      by_cases hk : (k1 == k) = true
      · have h2 : k1 = k := by simpa using hk
        have h3 : ¬ kv.1 = k := by
          intro h4
          exact h (by simp [h4, h2])
        simp [hk, h3]
      · simp [hk]

theorem objectAssign_one (o : List (String × Val)) (k : String) (v : Val) :
    objectAssign o [(k, v)] = setKey k v o := rfl

theorem objectAssign_three (o : List (String × Val)) (k1 k2 k3 : String) (v1 v2 v3 : Val) :
    objectAssign o [(k1, v1), (k2, v2), (k3, v3)] =
      setKey k3 v3 (setKey k2 v2 (setKey k1 v1 o)) := rfl

/-! ## The three conditionals of the record -/

theorem typeDescription_reads {doc : Val} (h : truthy (typeDescription doc) = true) :
    getProp doc "details" = .ok (optProp doc "details") ∧
    getProp (optProp doc "details") "legalEntityTypeDetail" =
      .ok (optProp (optProp doc "details") "legalEntityTypeDetail") ∧
    getProp (optProp (optProp doc "details") "legalEntityTypeDetail") "description" =
      .ok (typeDescription doc) := by
  have h3 := truthy_not_nullish h
  unfold typeDescription at h3
  have h2 := not_nullish_of_optProp h3
  have h1 := not_nullish_of_optProp h2
  exact ⟨getProp_of_optProp h1, getProp_of_optProp h2, getProp_of_optProp h3⟩

theorem addTipo_eq (doc : Val) (o : List (String × Val)) :
    addTipo doc o =
      if truthy (typeDescription doc) = true then
        match looseEqString (typeDescription doc) "INDIVIDUAL" with
        | .error e => .error e
        | .ok false => .ok (setKey "tipo_organizacion" (typeDescription doc) o)
        | .ok true =>
          match parseRazonSocial (lookupKey "nombre_razon_social" o) with
          | .error e => .error e
          | .ok persona =>
            .ok (setKey "nombre_persona" persona
              (setKey "tipo_organizacion" (typeDescription doc) o))
      else .ok o := by
  unfold addTipo
  by_cases h : truthy (typeDescription doc) = true
  · obtain ⟨r1, r2, r3⟩ := typeDescription_reads h
    rw [if_pos h, if_pos h, r1]
    simp only [r2, r3, objectAssign_one, lookupKey_setKey]
    simp
  · rw [if_neg h, if_neg h]

theorem addAddress_eq (doc : Val) (o : List (String × Val)) :
    addAddress doc o =
      .ok (if truthy (optProp doc "address") = true then
        setKey "direccion" (propOf (optProp doc "address") "streetAddress")
          (setKey "municipio" (propOf (optProp doc "address") "locality")
            (setKey "departamento" (propOf (optProp doc "address") "region") o))
      else o) := by
  unfold addAddress
  by_cases h : truthy (optProp doc "address") = true
  · have h1 := truthy_not_nullish h
    rw [if_pos h, if_pos h, getProp_of_optProp h1]
    simp only [getProp_of_not_nullish _ h1, objectAssign_three]
  · rw [if_neg h, if_neg h]

theorem addTelefono_eq (doc : Val) (o : List (String × Val)) :
    addTelefono doc o =
      .ok (if truthy (optProp (optProp doc "contactPoint") "telephone") = true then
        setKey "telefono" (optProp (optProp doc "contactPoint") "telephone") o
      else o) := by
  unfold addTelefono
  by_cases h : truthy (optProp (optProp doc "contactPoint") "telephone") = true
  · have h2 := truthy_not_nullish h
    have h1 := not_nullish_of_optProp h2
    rw [if_pos h, if_pos h, getProp_of_optProp h1]
    simp only [getProp_of_optProp h2, objectAssign_one]
  · rw [if_neg h, if_neg h]

/-- The record as a function of the outcome of the first conditional. -/
theorem buildRecord_eq (id : String) (doc : Val) (h : isNullish doc = false) :
    buildRecord id doc =
      match addTipo doc [("nombre_razon_social", propOf doc "name"), ("nit", .str id),
          ("adjudicado", .bool true)] with
      | .error e => .error e
      | .ok o1 =>
        .ok (if truthy (optProp (optProp doc "contactPoint") "telephone") = true then
          setKey "telefono" (optProp (optProp doc "contactPoint") "telephone")
            (if truthy (optProp doc "address") = true then
              setKey "direccion" (propOf (optProp doc "address") "streetAddress")
                (setKey "municipio" (propOf (optProp doc "address") "locality")
                  (setKey "departamento" (propOf (optProp doc "address") "region") o1))
            else o1)
        else
          (if truthy (optProp doc "address") = true then
              setKey "direccion" (propOf (optProp doc "address") "streetAddress")
                (setKey "municipio" (propOf (optProp doc "address") "locality")
                  (setKey "departamento" (propOf (optProp doc "address") "region") o1))
            else o1)) := by
  unfold buildRecord
  rw [getProp_of_not_nullish _ h]
  simp only []
  cases addTipo doc [("nombre_razon_social", propOf doc "name"), ("nit", .str id),
          ("adjudicado", .bool true)] with
  | error e => rfl
  | ok o1 =>
    simp only [addAddress_eq, addTelefono_eq]

theorem buildRecord_nullish (id : String) (doc : Val) (h : isNullish doc = true) :
    buildRecord id doc = .error .typeError := by
  simp [buildRecord, getProp, h]

/-! ## The record written for an id -/

theorem parseRazonSocial_str_total (n : String) :
    ∃ p, parseRazonSocial (.str n) = .ok p ∧ (p = .null ∨ ∃ t, p = .str t) := by
  rw [parseRazonSocial_str]
  by_cases hm : regexMatches razonSocialPattern n.data = true
  · rw [if_pos hm]
    exact ⟨_, rfl, Or.inr ⟨_, rfl⟩⟩
  · rw [if_neg hm]
    exact ⟨_, rfl, Or.inl rfl⟩

theorem isStr_iff (v : Val) : isStr v = true ↔ ∃ n, v = .str n := by
  cases v <;> simp [isStr]

/-- The three outcomes of the first conditional on a recordable
subdocument. -/
theorem addTipo_cases (id : String) (doc : Val) (h : recordable doc = true) :
    isNullish doc = false ∧
    ((truthy (typeDescription doc) = false ∧
        addTipo doc [("nombre_razon_social", propOf doc "name"), ("nit", .str id),
          ("adjudicado", .bool true)] =
          .ok [("nombre_razon_social", propOf doc "name"), ("nit", .str id),
            ("adjudicado", .bool true)]) ∨
      (truthy (typeDescription doc) = true ∧
        looseEqString (typeDescription doc) "INDIVIDUAL" = .ok false ∧
        addTipo doc [("nombre_razon_social", propOf doc "name"), ("nit", .str id),
          ("adjudicado", .bool true)] =
          .ok [("nombre_razon_social", propOf doc "name"), ("nit", .str id),
            ("adjudicado", .bool true), ("tipo_organizacion", typeDescription doc)]) ∨
      (truthy (typeDescription doc) = true ∧
        looseEqString (typeDescription doc) "INDIVIDUAL" = .ok true ∧
        ∃ n p, propOf doc "name" = .str n ∧ parseRazonSocial (.str n) = .ok p ∧
          (p = .null ∨ ∃ t, p = .str t) ∧
          addTipo doc [("nombre_razon_social", propOf doc "name"), ("nit", .str id),
            ("adjudicado", .bool true)] =
            .ok [("nombre_razon_social", propOf doc "name"), ("nit", .str id),
              ("adjudicado", .bool true), ("tipo_organizacion", typeDescription doc),
              ("nombre_persona", p)])) := by
  unfold recordable at h
  simp only [Bool.and_eq_true, Bool.not_eq_true', Bool.or_eq_true] at h
  obtain ⟨hdoc, h⟩ := h
  refine ⟨hdoc, ?_⟩
  rw [addTipo_eq]
  by_cases ht : truthy (typeDescription doc) = true
  · right
    rw [if_pos ht]
    rcases h with h | h
    · rw [ht] at h
      cases h
    · cases hl : looseEqString (typeDescription doc) "INDIVIDUAL" with
      | error e => rw [hl] at h; cases h
      | ok b =>
        cases b with
        | false =>
          left
          refine ⟨ht, rfl, ?_⟩
          simp [setKey]
        | true =>
          right
          rw [hl] at h
          obtain ⟨n, hn⟩ := (isStr_iff _).mp h
          obtain ⟨p, hp, hp2⟩ := parseRazonSocial_str_total n
          refine ⟨ht, rfl, n, p, hn, hp, hp2, ?_⟩
          simp only [lookupKey_cons, beq_self_eq_true, if_true, hn, hp]
          simp [setKey]
  · left
    rw [if_neg ht]
    exact ⟨by simpa using ht, rfl⟩

/-- The record starts with the three members every record has. -/
theorem buildRecord_shape (id : String) (doc : Val) (hrec : recordable doc = true) :
    ∃ extra, buildRecord id doc =
      .ok (("nombre_razon_social", propOf doc "name") :: ("nit", .str id)
        :: ("adjudicado", .bool true) :: extra) := by
  obtain ⟨hdoc, h⟩ := addTipo_cases id doc hrec
  rw [buildRecord_eq id doc hdoc]
  rcases h with ⟨-, h⟩ | ⟨-, -, h⟩ | ⟨-, -, n, p, -, -, -, h⟩ <;>
  · rw [h]
    simp only []
    split_ifs <;> simp [setKey]

theorem notFound_iff (search : String → Except JSError SearchResponse) (id : String) :
    notFound search id = true ↔ ∃ target, findEntity search id = .ok target ∧ truthy target = false := by
  unfold notFound
  cases findEntity search id with
  | error e => simp
  | ok target => simp

theorem processEntry_notFound (search : String → Except JSError SearchResponse) (id : String)
    (doc : Val) (h : notFound search id = true) :
    processEntry search id doc =
      match buildRecord id doc with
      | .error e => .error e
      | .ok newObj => .ok (some newObj) := by
  obtain ⟨target, h1, h2⟩ := (notFound_iff search id).mp h
  simp [processEntry, h1, h2]

theorem processEntry_found (search : String → Except JSError SearchResponse) (id : String)
    (doc : Val) (target : Val) (h1 : findEntity search id = .ok target)
    (h2 : truthy target = true) :
    processEntry search id doc = .ok none := by
  simp [processEntry, h1, h2]

theorem objectKeys_singleton (id : String) (doc : Val) : objectKeys [(id, doc)] = [id] := by
  unfold objectKeys
  cases h : isArrayIndex id <;> simp [h]

theorem stringify_obj (o : List (String × Val)) :
    stringify (.obj o) = some ("\x7b" ++ ",".intercalate (stringifyFields o) ++ "\x7d") := by
  rw [stringify]

theorem jsonLine_eq (o : List (String × Val)) :
    jsonLine o = "\x7b" ++ ",".intercalate (stringifyFields o) ++ "\x7d" ++ "\n" := by
  simp [jsonLine, stringify_obj]

theorem processQueue_singleton (search : String → Except JSError SearchResponse) (id : String)
    (doc : Val) (r : List (String × Val)) (h : processEntry search id doc = .ok (some r)) :
    processQueue search [(id, doc)] = ([jsonLine r], none) := by
  simp [processQueue, writtenRecords, objectKeys_singleton, processKeys, lookupKey, h]

theorem recordable_of_buildRecord (id : String) (doc : Val) (r : List (String × Val))
    (h : buildRecord id doc = .ok r) : recordable doc = true := by
  by_cases hdoc : isNullish doc = true
  · rw [buildRecord_nullish id doc hdoc] at h
    cases h
  · have hdoc1 : isNullish doc = false := by simpa using hdoc
    rw [buildRecord_eq id doc hdoc1, addTipo_eq] at h
    unfold recordable
    simp only [hdoc1, Bool.not_false, Bool.true_and, Bool.or_eq_true, Bool.not_eq_true']
    by_cases ht : truthy (typeDescription doc) = true
    · right
      rw [if_pos ht] at h
      cases hl : looseEqString (typeDescription doc) "INDIVIDUAL" with
      | error e => rw [hl] at h; cases h
      | ok b =>
        cases b with
        | false => rfl
        | true =>
          rw [hl] at h
          simp only [lookupKey_cons, beq_self_eq_true, if_true] at h
          cases hn : propOf doc "name" with
          | str n => rfl
          | _ => rw [hn] at h; simp [parseRazonSocial] at h
    · left
      simpa using ht

/-- C5 fails on the code: for a subdocument object of type `INDIVIDUAL`
without a name, whose id is not in the index, `parseRazonSocial` is called on
`undefined` and throws, and no line is written. -/
theorem processQueue_individual_without_name :
    notFound emptyIndex "1" = true ∧
    processQueue emptyIndex
      [("1", .obj [("details", .obj [("legalEntityTypeDetail",
        .obj [("description", .str "INDIVIDUAL")])])])] = ([], some .typeError) := by
  decide

/-- C5 on the recordable subdocuments. For every id that `findEntity` does
not find and every recordable subdocument stored under it (not nullish; with
a string for name when its type description is loosely `"INDIVIDUAL"`; with a
type description that can be compared with a string), the loop body writes
exactly one chunk:
the JSON serialisation, followed by a newline, of an object whose first
three members are `nombre_razon_social` (the name of the subdocument), `nit`
(the id) and `adjudicado` (`true`).  On the input of the specification the
whole output is the one line given there. -/
theorem processEntry_writes_one_line :
    (∀ (search : String → Except JSError SearchResponse) (id : String) (doc : Val),
      notFound search id = true → recordable doc = true →
      ∃ extra s,
        processEntry search id doc =
          .ok (some (("nombre_razon_social", propOf doc "name") :: ("nit", .str id)
            :: ("adjudicado", .bool true) :: extra)) ∧
        stringify (.obj (("nombre_razon_social", propOf doc "name") :: ("nit", .str id)
            :: ("adjudicado", .bool true) :: extra)) = some s ∧
        processQueue search [(id, doc)] = ([s ++ "\n"], none)) ∧
    run memberPath idDocArgs emptyIndex
      [.obj [("id", .str "123"), ("doc", .obj [("name", .str "Acme"),
        ("address", .obj [("region", .str "R"), ("locality", .str "L"),
          ("streetAddress", .str "S")])])]] =
      (["\x7b\"nombre_razon_social\":\"Acme\",\"nit\":\"123\",\"adjudicado\":true,\"departamento\":\"R\",\"municipio\":\"L\",\"direccion\":\"S\"\x7d\n"],
        none) := by
  refine ⟨?_, by decide⟩
  intro search id doc hnf hrec
  obtain ⟨extra, hb⟩ := buildRecord_shape id doc hrec
  have hp := processEntry_notFound search id doc hnf
  rw [hb] at hp
  refine ⟨extra, _, hp, stringify_obj _, ?_⟩
  rw [processQueue_singleton search id doc _ hp, jsonLine_eq]

/-- C5 on a subdocument with a name and a telephone. -/
theorem processEntry_writes_one_line_witness :
    notFound emptyIndex "7" = true ∧
    recordable (.obj [("name", .str "Acme"), ("contactPoint", .obj [("telephone", .str "5")])])
      = true ∧
    ∃ extra s,
      processEntry emptyIndex "7"
        (.obj [("name", .str "Acme"), ("contactPoint", .obj [("telephone", .str "5")])]) =
        .ok (some (("nombre_razon_social",
          propOf (.obj [("name", .str "Acme"), ("contactPoint", .obj [("telephone", .str "5")])])
            "name") :: ("nit", .str "7") :: ("adjudicado", .bool true) :: extra)) ∧
      stringify (.obj (("nombre_razon_social",
          propOf (.obj [("name", .str "Acme"), ("contactPoint", .obj [("telephone", .str "5")])])
            "name") :: ("nit", .str "7") :: ("adjudicado", .bool true) :: extra)) = some s ∧
      processQueue emptyIndex
        [("7", .obj [("name", .str "Acme"), ("contactPoint", .obj [("telephone", .str "5")])])] =
        ([s ++ "\n"], none) :=
  ⟨by decide, by decide,
    processEntry_writes_one_line.1 emptyIndex "7"
      (.obj [("name", .str "Acme"), ("contactPoint", .obj [("telephone", .str "5")])])
      (by decide) (by decide)⟩

theorem stringifyFields_filter (r : List (String × Val)) :
    stringifyFields r = stringifyFields (r.filter (fun kv => kv.2 != .undefined)) := by
  induction r with
  | nil => rfl
  | cons kv r ih =>
    rw [List.filter_cons]
    by_cases h : kv.2 = .undefined
    · have hf : (kv.2 != Val.undefined) = false := by simp [h]
      simp only [hf, Bool.false_eq_true, if_false]
      rw [stringifyFields, h, ← ih]
      simp [stringify, fieldStep]
    · have hf : (kv.2 != Val.undefined) = true := by simp [h]
      simp only [hf, if_true]
      rw [stringifyFields, stringifyFields, ih]

theorem nit_of_buildRecord (id : String) (doc : Val) (r : List (String × Val))
    (h : buildRecord id doc = .ok r) : lookupKey "nit" r = .str id := by
  obtain ⟨extra, hb⟩ := buildRecord_shape id doc (recordable_of_buildRecord id doc r h)
  rw [hb] at h
  rw [← Except.ok.inj h]
  simp [lookupKey]

theorem processEntry_some (search : String → Except JSError SearchResponse) (id : String)
    (doc : Val) (r : List (String × Val)) (h : processEntry search id doc = .ok (some r)) :
    notFound search id = true ∧ buildRecord id doc = .ok r := by
  unfold processEntry at h
  cases hf : findEntity search id with
  | error e => rw [hf] at h; cases h
  | ok target =>
    rw [hf] at h
    by_cases ht : truthy target = true
    · simp [ht] at h
    · have ht1 : truthy target = false := by simpa using ht
      simp only [ht1, Bool.not_false, if_true] at h
      refine ⟨(notFound_iff search id).mpr ⟨target, hf, ht1⟩, ?_⟩
      cases hb : buildRecord id doc with
      | error e => rw [hb] at h; cases h
      | ok o =>
        rw [hb] at h
        simp only [Except.ok.injEq, Option.some.injEq] at h
        rw [h]

/-- Every record written carries the id of a key that was not found. -/
theorem processKeys_records (search : String → Except JSError SearchResponse) (q : DocQueue)
    (ids : List String) :
    ∀ r ∈ (processKeys search q ids).1,
      ∃ id ∈ ids, notFound search id = true ∧ lookupKey "nit" r = .str id := by
  induction ids with
  | nil => intro r hr; simp [processKeys] at hr
  | cons id ids ih =>
    intro r hr
    unfold processKeys at hr
    cases hp : processEntry search id (lookupKey id q) with
    | error e => rw [hp] at hr; simp at hr
    | ok o =>
      cases o with
      | none =>
        rw [hp] at hr
        obtain ⟨i, hi, h⟩ := ih r hr
        exact ⟨i, List.mem_cons_of_mem _ hi, h⟩
      | some newObj =>
        rw [hp] at hr
        obtain ⟨hnf, hb⟩ := processEntry_some search id _ newObj hp
        rcases List.mem_cons.mp hr with rfl | hr
        · exact ⟨id, List.mem_cons_self _ _, hnf, nit_of_buildRecord id _ _ hb⟩
        · obtain ⟨i, hi, h⟩ := ih r hr
          exact ⟨i, List.mem_cons_of_mem _ hi, h⟩

/-! ## C4 -/

/-- C4, as stated, fails: the response for the id has a hit, the hit carries
no `_source`, and the line is written. -/
theorem processQueue_hit_without_source :
    (∃ hit rest, (fun _ => .ok ⟨some [⟨.undefined⟩]⟩ : String → Except JSError SearchResponse) "1"
      = .ok ⟨some (hit :: rest)⟩) ∧
    processQueue (fun _ => .ok ⟨some [⟨.undefined⟩]⟩) [("1", .obj [("name", .str "X")])] =
      (["\x7b\"nombre_razon_social\":\"X\",\"nit\":\"1\",\"adjudicado\":true\x7d\n"], none) :=
  ⟨⟨_, _, rfl⟩, by decide⟩

/-- C4, amended. If the response for an id has at least one hit and the
`_source` of its first hit is truthy (as every object is), `findEntity`
returns that `_source`, the loop body writes nothing for the id, whatever
the subdocument, and no record `processQueue` writes carries the id.
`findEntity` reports no entity exactly when the response has no hit or the
`_source` of its first hit is falsy. -/
theorem found_entity_writes_nothing :
    (∀ (search : String → Except JSError SearchResponse) (q : DocQueue) (id : String)
      (doc : Val) (response : SearchResponse) (hit : Hit) (rest : List Hit),
      search id = .ok response → response.hits = some (hit :: rest) →
      truthy hit._source = true →
      findEntity search id = .ok hit._source ∧
      processEntry search id doc = .ok none ∧
      ∀ r ∈ writtenRecords search q, lookupKey "nit" r ≠ .str id) ∧
    (∀ (search : String → Except JSError SearchResponse) (id : String),
      notFound search id = true ↔
        ∃ response, search id = .ok response ∧
          (response.hits = none ∨ response.hits = some [] ∨
            ∃ hit rest, response.hits = some (hit :: rest) ∧ truthy hit._source = false)) := by
  constructor
  · intro search q id doc response hit rest hs hh ht
    have hf : findEntity search id = .ok hit._source := by
      simp [findEntity, hs, hh]
    refine ⟨hf, processEntry_found search id doc _ hf ht, ?_⟩
    intro r hr hnit
    obtain ⟨i, -, hnf, hi⟩ := processKeys_records search q _ r hr
    rw [hnit] at hi
    have hid : id = i := Val.str.inj hi
    subst hid
    obtain ⟨target, h1, h2⟩ := (notFound_iff search id).mp hnf
    rw [hf] at h1
    rw [← Except.ok.inj h1, ht] at h2
    cases h2
  · intro search id
    rw [notFound_iff]
    unfold findEntity
    cases hs : search id with
    | error e => simp
    | ok response =>
      obtain ⟨hits⟩ := response
      cases hits with
      | none => simp [truthy]
      | some l =>
        cases l with
        | nil => simp [truthy]
        | cons hit rest => simp

/-- The amended C4 on an index that knows every id. -/
theorem found_entity_writes_nothing_witness :
    (fun _ => .ok ⟨some [⟨.obj []⟩]⟩ : String → Except JSError SearchResponse) "1"
      = .ok ⟨some [⟨.obj []⟩]⟩ ∧
    (⟨some [⟨.obj []⟩]⟩ : SearchResponse).hits = some ((⟨.obj []⟩ : Hit) :: []) ∧
    truthy (⟨.obj []⟩ : Hit)._source = true ∧
    (findEntity (fun _ => .ok ⟨some [⟨.obj []⟩]⟩) "1" = .ok (⟨.obj []⟩ : Hit)._source ∧
      processEntry (fun _ => .ok ⟨some [⟨.obj []⟩]⟩) "1" (.obj [("name", .str "X")]) = .ok none ∧
      ∀ r ∈ writtenRecords (fun _ => .ok ⟨some [⟨.obj []⟩]⟩)
        [("1", .obj [("name", .str "X")])], lookupKey "nit" r ≠ .str "1") :=
  ⟨rfl, rfl, rfl,
    found_entity_writes_nothing.1 (fun _ => .ok ⟨some [⟨.obj []⟩]⟩)
      [("1", .obj [("name", .str "X")])] "1" (.obj [("name", .str "X")])
      ⟨some [⟨.obj []⟩]⟩ ⟨.obj []⟩ [] rfl rfl rfl⟩

/-! ## C8 -/

/-- C8, as stated, fails: a type description that is the array
`["INDIVIDUAL"]`, not the string, also gets a `nombre_persona`; and with a
name that is not a string the computation throws and no record is built. -/
theorem nombre_persona_array_type_and_number_name :
    (typeDescription (.obj [("name", .str "a,b,c,d,e"), ("details",
        .obj [("legalEntityTypeDetail", .obj [("description", .arr [.str "INDIVIDUAL"])])])])
        ≠ .str "INDIVIDUAL" ∧
      (buildRecord "1" (.obj [("name", .str "a,b,c,d,e"), ("details",
        .obj [("legalEntityTypeDetail", .obj [("description", .arr [.str "INDIVIDUAL"])])])])).map
        (lookupKey "nombre_persona") = .ok (.str "d e a b c")) ∧
    (typeDescription (.obj [("name", .num "5"), ("details",
        .obj [("legalEntityTypeDetail", .obj [("description", .str "INDIVIDUAL")])])])
        = .str "INDIVIDUAL" ∧
      buildRecord "1" (.obj [("name", .num "5"), ("details",
        .obj [("legalEntityTypeDetail", .obj [("description", .str "INDIVIDUAL")])])])
        = .error .typeError) := by
  decide

/-- The second and third conditionals leave the other members as they are. -/
theorem hasKey_after_tipo (k : String) (doc : Val) (o1 : List (String × Val))
    (h1 : ("telefono" == k) = false) (h2 : ("direccion" == k) = false)
    (h3 : ("municipio" == k) = false) (h4 : ("departamento" == k) = false) :
    hasKey k
      (if truthy (optProp (optProp doc "contactPoint") "telephone") = true then
        setKey "telefono" (optProp (optProp doc "contactPoint") "telephone")
          (if truthy (optProp doc "address") = true then
            setKey "direccion" (propOf (optProp doc "address") "streetAddress")
              (setKey "municipio" (propOf (optProp doc "address") "locality")
                (setKey "departamento" (propOf (optProp doc "address") "region") o1))
          else o1)
      else
        (if truthy (optProp doc "address") = true then
            setKey "direccion" (propOf (optProp doc "address") "streetAddress")
              (setKey "municipio" (propOf (optProp doc "address") "locality")
                (setKey "departamento" (propOf (optProp doc "address") "region") o1))
          else o1)) = hasKey k o1 := by
  split_ifs <;> simp [hasKey_setKey, h1, h2, h3, h4]

theorem lookupKey_after_tipo (k : String) (doc : Val) (o1 : List (String × Val))
    (h1 : ("telefono" == k) = false) (h2 : ("direccion" == k) = false)
    (h3 : ("municipio" == k) = false) (h4 : ("departamento" == k) = false) :
    lookupKey k
      (if truthy (optProp (optProp doc "contactPoint") "telephone") = true then
        setKey "telefono" (optProp (optProp doc "contactPoint") "telephone")
          (if truthy (optProp doc "address") = true then
            setKey "direccion" (propOf (optProp doc "address") "streetAddress")
              (setKey "municipio" (propOf (optProp doc "address") "locality")
                (setKey "departamento" (propOf (optProp doc "address") "region") o1))
          else o1)
      else
        (if truthy (optProp doc "address") = true then
            setKey "direccion" (propOf (optProp doc "address") "streetAddress")
              (setKey "municipio" (propOf (optProp doc "address") "locality")
                (setKey "departamento" (propOf (optProp doc "address") "region") o1))
          else o1)) = lookupKey k o1 := by
  split_ifs <;> simp [lookupKey_setKey, h1, h2, h3, h4]

/-- C8, amended. For every id and every subdocument that is not nullish,
has a string for name and a type description that can be compared with a
string, the record is built, and it has the member `nombre_persona` exactly
when the type description is truthy and loosely equal to `"INDIVIDUAL"`: for
a string, exactly when it is the string `"INDIVIDUAL"`.  Its value is then
`parseRazonSocial` of the name, which is `null` or a string. -/
theorem nombre_persona_iff_individual (id : String) (doc : Val) (n : String)
    (hdoc : isNullish doc = false) (hname : propOf doc "name" = .str n)
    (hcmp : ∃ b, looseEqString (typeDescription doc) "INDIVIDUAL" = .ok b) :
    ∃ r p, buildRecord id doc = .ok r ∧ parseRazonSocial (.str n) = .ok p ∧
      (p = .null ∨ ∃ t, p = .str t) ∧
      (hasKey "nombre_persona" r = true ↔
        truthy (typeDescription doc) = true ∧
          looseEqString (typeDescription doc) "INDIVIDUAL" = .ok true) ∧
      (hasKey "nombre_persona" r = true → lookupKey "nombre_persona" r = p) ∧
      (∀ t, typeDescription doc = .str t →
        (hasKey "nombre_persona" r = true ↔ t = "INDIVIDUAL")) := by
  obtain ⟨b, hb⟩ := hcmp
  have hrec : recordable doc = true := by
    unfold recordable
    rw [hb, hname, hdoc]
    cases b <;> simp [isStr]
  obtain ⟨p, hp, hp2⟩ := parseRazonSocial_str_total n
  have hstr : ∀ t, typeDescription doc = .str t →
      ((truthy (typeDescription doc) = true ∧
          looseEqString (typeDescription doc) "INDIVIDUAL" = .ok true) ↔ t = "INDIVIDUAL") := by
    intro t ht
    rw [ht]
    simp only [truthy, looseEqString, Except.ok.injEq, beq_iff_eq, bne_iff_ne, ne_eq]
    constructor
    · exact fun h => h.2
    · rintro rfl
      exact ⟨by decide, rfl⟩
  obtain ⟨-, h⟩ := addTipo_cases id doc hrec
  rw [buildRecord_eq id doc hdoc]
  rcases h with ⟨h1, h⟩ | ⟨h1, h2, h⟩ | ⟨h1, h2, n1, p1, hn1, hp1, -, h⟩
  · rw [h]
    simp only []
    refine ⟨_, p, rfl, hp, hp2, ?_⟩
    rw [hasKey_after_tipo _ _ _ (by decide) (by decide) (by decide) (by decide)]
    refine ⟨?_, ?_, ?_⟩
    · simp [h1, hasKey]
    · intro hf
      simp [hasKey] at hf
    · intro t ht
      rw [← hstr t ht]
      simp [h1, hasKey]
  · rw [h]
    simp only []
    refine ⟨_, p, rfl, hp, hp2, ?_⟩
    rw [hasKey_after_tipo _ _ _ (by decide) (by decide) (by decide) (by decide)]
    refine ⟨?_, ?_, ?_⟩
    · simp [h2, hasKey]
    · intro hf
      simp [hasKey] at hf
    · intro t ht
      rw [← hstr t ht]
      simp [h2, hasKey]
  · rw [h]
    simp only []
    have hpp : p1 = p := by
      rw [hname] at hn1
      rw [← Val.str.inj hn1, hp] at hp1
      exact (Except.ok.inj hp1).symm
    subst hpp
    refine ⟨_, p1, rfl, hp, hp2, ?_⟩
    rw [hasKey_after_tipo _ _ _ (by decide) (by decide) (by decide) (by decide),
      lookupKey_after_tipo _ _ _ (by decide) (by decide) (by decide) (by decide)]
    refine ⟨?_, ?_, ?_⟩
    · simp [h1, h2, hasKey]
    · intro _
      simp [lookupKey]
    · intro t ht
      rw [← hstr t ht]
      simp [h1, h2, hasKey]

/-- The amended C8 on a subdocument of type `INDIVIDUAL`. -/
theorem nombre_persona_iff_individual_witness :
    isNullish individualDoc = false ∧
    propOf individualDoc "name" = .str "Gomez,Perez,,Juan,Carlos" ∧
    (∃ b, looseEqString (typeDescription individualDoc) "INDIVIDUAL" = .ok b) ∧
    ∃ r p, buildRecord "9" individualDoc = .ok r ∧
      parseRazonSocial (.str "Gomez,Perez,,Juan,Carlos") = .ok p ∧
      (p = .null ∨ ∃ t, p = .str t) ∧
      (hasKey "nombre_persona" r = true ↔
        truthy (typeDescription individualDoc) = true ∧
          looseEqString (typeDescription individualDoc) "INDIVIDUAL" = .ok true) ∧
      (hasKey "nombre_persona" r = true → lookupKey "nombre_persona" r = p) ∧
      (∀ t, typeDescription individualDoc = .str t →
        (hasKey "nombre_persona" r = true ↔ t = "INDIVIDUAL")) :=
  ⟨by decide, by decide, ⟨true, by decide⟩,
    nombre_persona_iff_individual "9" individualDoc "Gomez,Perez,,Juan,Carlos"
      (by decide) (by decide) ⟨true, by decide⟩⟩

/-! ## C9 -/

/-- C9, as stated, fails: a telephone that is present and is the empty
string is not copied, and the line has no `telefono`. -/
theorem telefono_empty_string_not_copied :
    optProp (optProp (.obj [("name", .str "A"), ("contactPoint",
      .obj [("telephone", .str "")])]) "contactPoint") "telephone" ≠ .undefined ∧
    (buildRecord "1" (.obj [("name", .str "A"), ("contactPoint",
      .obj [("telephone", .str "")])])).map (hasKey "telefono") = .ok false ∧
    processQueue emptyIndex [("1", .obj [("name", .str "A"), ("contactPoint",
      .obj [("telephone", .str "")])])] =
      (["\x7b\"nombre_razon_social\":\"A\",\"nit\":\"1\",\"adjudicado\":true\x7d\n"], none) := by
  decide

/-- C9, amended. For every id and every recordable subdocument the record
is built, and each optional member is set exactly when its source is truthy
(present and not `null`, `false`, zero or the empty string):
`tipo_organizacion`, equal to the type description; `departamento`,
`municipio` and `direccion`, equal to the `region`, `locality` and
`streetAddress` of the address, each read on its own; `telefono`, equal to
the telephone.  A member whose value is `undefined` is left out of the line. -/
theorem optional_fields_iff_truthy (id : String) (doc : Val) (hrec : recordable doc = true) :
    ∃ r, buildRecord id doc = .ok r ∧
      hasKey "tipo_organizacion" r = truthy (typeDescription doc) ∧
      (truthy (typeDescription doc) = true →
        lookupKey "tipo_organizacion" r = typeDescription doc) ∧
      hasKey "departamento" r = truthy (optProp doc "address") ∧
      hasKey "municipio" r = truthy (optProp doc "address") ∧
      hasKey "direccion" r = truthy (optProp doc "address") ∧
      (truthy (optProp doc "address") = true →
        lookupKey "departamento" r = propOf (optProp doc "address") "region" ∧
        lookupKey "municipio" r = propOf (optProp doc "address") "locality" ∧
        lookupKey "direccion" r = propOf (optProp doc "address") "streetAddress") ∧
      hasKey "telefono" r = truthy (optProp (optProp doc "contactPoint") "telephone") ∧
      (truthy (optProp (optProp doc "contactPoint") "telephone") = true →
        lookupKey "telefono" r = optProp (optProp doc "contactPoint") "telephone") ∧
      jsonLine r = jsonLine (r.filter (fun kv => kv.2 != .undefined)) := by
  obtain ⟨hdoc, h⟩ := addTipo_cases id doc hrec
  rw [buildRecord_eq id doc hdoc]
  have hline : ∀ r : List (String × Val),
      jsonLine r = jsonLine (r.filter (fun kv => kv.2 != .undefined)) := by
    intro r
    rw [jsonLine_eq, jsonLine_eq, ← stringifyFields_filter]
  rcases h with ⟨h1, h⟩ | ⟨h1, h2, h⟩ | ⟨h1, h2, n1, p1, hn1, hp1, -, h⟩ <;>
  · rw [h]
    simp only []
    cases ha : truthy (optProp doc "address") <;>
    cases ht : truthy (optProp (optProp doc "contactPoint") "telephone") <;>
    · simp only [Bool.false_eq_true, if_true, if_false]
      refine ⟨_, rfl, ?_, ?_, ?_, ?_, ?_, ?_, ?_, ?_, hline _⟩ <;>
      simp [hasKey_setKey, hasKey_cons, hasKey_nil, lookupKey_setKey, lookupKey_cons,
        lookupKey_nil, h1]

/-- The amended C9 on a subdocument with an address and a telephone. -/
theorem optional_fields_iff_truthy_witness :
    recordable addressDoc = true ∧
    ∃ r, buildRecord "9" addressDoc = .ok r ∧
      hasKey "tipo_organizacion" r = truthy (typeDescription addressDoc) ∧
      (truthy (typeDescription addressDoc) = true →
        lookupKey "tipo_organizacion" r = typeDescription addressDoc) ∧
      hasKey "departamento" r = truthy (optProp addressDoc "address") ∧
      hasKey "municipio" r = truthy (optProp addressDoc "address") ∧
      hasKey "direccion" r = truthy (optProp addressDoc "address") ∧
      (truthy (optProp addressDoc "address") = true →
        lookupKey "departamento" r = propOf (optProp addressDoc "address") "region" ∧
        lookupKey "municipio" r = propOf (optProp addressDoc "address") "locality" ∧
        lookupKey "direccion" r = propOf (optProp addressDoc "address") "streetAddress") ∧
      hasKey "telefono" r = truthy (optProp (optProp addressDoc "contactPoint") "telephone") ∧
      (truthy (optProp (optProp addressDoc "contactPoint") "telephone") = true →
        lookupKey "telefono" r = optProp (optProp addressDoc "contactPoint") "telephone") ∧
      jsonLine r = jsonLine (r.filter (fun kv => kv.2 != .undefined)) :=
  ⟨by decide, optional_fields_iff_truthy "9" addressDoc (by decide)⟩

/-! ## C10 -/

/-- The loop body throws on every id that is not found and whose stored
subdocument is `undefined` or `null`. -/
theorem processEntry_nullish_throws (search : String → Except JSError SearchResponse)
    (id : String) (doc : Val) (hnf : notFound search id = true) (hdoc : isNullish doc = true) :
    processEntry search id doc = .error .typeError := by
  rw [processEntry_notFound search id doc hnf, buildRecord_nullish id doc hdoc]

/-- C10 fails on the code: an id whose document has no subdocument match is
stored with `undefined`, the read of `doc.name` throws on it, and the entry
after it is never processed. -/
theorem processQueue_absent_subdocument_throws :
    ingestAll memberPath idDocArgs []
      [.obj [("id", .str "a")], .obj [("id", .str "b"), ("doc", .obj [("name", .str "B")])]] =
      .ok [("a", .undefined), ("b", .obj [("name", .str "B")])] ∧
    notFound emptyIndex "a" = true ∧ notFound emptyIndex "b" = true ∧
    processQueue emptyIndex [("a", .undefined), ("b", .obj [("name", .str "B")])] =
      ([], some .typeError) ∧
    processQueue emptyIndex [("b", .obj [("name", .str "B")])] =
      (["\x7b\"nombre_razon_social\":\"B\",\"nit\":\"b\",\"adjudicado\":true\x7d\n"], none) := by
  decide

/-! ## C2: the order of the output -/

theorem processKeys_all (search : String → Except JSError SearchResponse) (q : DocQueue)
    (ids : List String) (hs : ∀ id ∈ ids, ∃ t, findEntity search id = .ok t)
    (hrec : ∀ id ∈ ids, notFound search id = true → recordable (lookupKey id q) = true) :
    (processKeys search q ids).2 = none ∧
    (processKeys search q ids).1.map (lookupKey "nit") =
      (ids.filter (notFound search)).map Val.str := by
  induction ids with
  | nil => simp [processKeys]
  | cons id ids ih =>
    obtain ⟨ih1, ih2⟩ := ih (fun i hi => hs i (List.mem_cons_of_mem _ hi))
      (fun i hi => hrec i (List.mem_cons_of_mem _ hi))
    unfold processKeys
    by_cases hnf : notFound search id = true
    · obtain ⟨extra, hb⟩ := buildRecord_shape id _ (hrec id (List.mem_cons_self _ _) hnf)
      rw [processEntry_notFound search id _ hnf, hb]
      simp only [List.filter_cons_of_pos hnf, List.map_cons, ih1, ih2]
      simp [lookupKey]
    · obtain ⟨t, ht⟩ := hs id (List.mem_cons_self _ _)
      have htr : truthy t = true := by
        by_contra hc
        exact hnf ((notFound_iff search id).mpr ⟨t, ht, by simpa using hc⟩)
      rw [processEntry_found search id _ t ht htr]
      simp only [List.filter_cons_of_neg hnf]
      exact ⟨ih1, ih2⟩

theorem findEntity_total (lookup : String → SearchResponse) (id : String) :
    ∃ t, findEntity (fun i => .ok (lookup i)) id = .ok t := by
  unfold findEntity
  simp only []
  split <;> exact ⟨_, rfl⟩

theorem objectKeys_perm (o : List (String × Val)) : (objectKeys o).Perm (o.map Prod.fst) := by
  unfold objectKeys
  exact ((List.perm_insertionSort indexLE _).append_right _).trans
    (List.filter_append_perm isArrayIndex _)

theorem objectKeys_no_index (o : List (String × Val))
    (h : ∀ k ∈ o.map Prod.fst, isArrayIndex k = false) : objectKeys o = o.map Prod.fst := by
  unfold objectKeys
  have h1 : (o.map Prod.fst).filter isArrayIndex = [] := by
    rw [List.filter_eq_nil_iff]
    intro k hk
    simp [h k hk]
  have h2 : (o.map Prod.fst).filter (fun k => !isArrayIndex k) = o.map Prod.fst := by
    rw [List.filter_eq_self]
    intro k hk
    simp [h k hk]
  rw [h1, h2]
  rfl

/-- C2, as stated, fails: with the ids `"2"` and `"1"`, seen in that order
and neither in the index, the line of `"1"` is written first. -/
theorem processQueue_numeric_ids_reordered :
    ingestAll memberPath idDocArgs []
      [.obj [("id", .str "2"), ("doc", .obj [("name", .str "Two")])],
        .obj [("id", .str "1"), ("doc", .obj [("name", .str "One")])]] =
      .ok [("2", .obj [("name", .str "Two")]), ("1", .obj [("name", .str "One")])] ∧
    (([("2", Val.obj [("name", .str "Two")]), ("1", Val.obj [("name", .str "One")])].map
      Prod.fst).filter (notFound emptyIndex)).map Val.str = [.str "2", .str "1"] ∧
    (writtenRecords emptyIndex
      [("2", .obj [("name", .str "Two")]), ("1", .obj [("name", .str "One")])]).map
      (lookupKey "nit") = [.str "1", .str "2"] ∧
    processQueue emptyIndex
      [("2", .obj [("name", .str "Two")]), ("1", .obj [("name", .str "One")])] =
      (["\x7b\"nombre_razon_social\":\"One\",\"nit\":\"1\",\"adjudicado\":true\x7d\n",
        "\x7b\"nombre_razon_social\":\"Two\",\"nit\":\"2\",\"adjudicado\":true\x7d\n"], none) := by
  decide

/-- C2, amended. For every table and every search that never fails, if the
subdocument of every id that is not found is recordable, `processQueue` runs
to the end, writes the JSON lines of its records, and the `nit` values of
the records are the ids in the order of `Object.keys`, filtered to the ids
that are not found.  That order is: the ids that are array indices, sorted
by numeric value, then the other ids in insertion order; it is the insertion
order when no id is an array index. -/
theorem processQueue_follows_objectKeys (lookup : String → SearchResponse) (q : DocQueue)
    (hrec : ∀ id ∈ objectKeys q, notFound (fun i => .ok (lookup i)) id = true →
      recordable (lookupKey id q) = true) :
    (processQueue (fun i => .ok (lookup i)) q).2 = none ∧
    (processQueue (fun i => .ok (lookup i)) q).1 =
      (writtenRecords (fun i => .ok (lookup i)) q).map jsonLine ∧
    (writtenRecords (fun i => .ok (lookup i)) q).map (lookupKey "nit") =
      ((objectKeys q).filter (notFound (fun i => .ok (lookup i)))).map Val.str ∧
    (∃ idx, objectKeys q = idx ++ (q.map Prod.fst).filter (fun k => !isArrayIndex k) ∧
      idx.Sorted indexLE ∧ idx.Perm ((q.map Prod.fst).filter isArrayIndex)) ∧
    ((∀ k ∈ q.map Prod.fst, isArrayIndex k = false) → objectKeys q = q.map Prod.fst) := by
  obtain ⟨h1, h2⟩ := processKeys_all (fun i => .ok (lookup i)) q (objectKeys q)
    (fun id _ => findEntity_total lookup id) hrec
  refine ⟨h1, rfl, h2, ?_, objectKeys_no_index q⟩
  exact ⟨_, rfl, List.sorted_insertionSort indexLE _, List.perm_insertionSort indexLE _⟩

/-- The amended C2 on a table with a name and two array indices. -/
theorem processQueue_follows_objectKeys_witness :
    (∀ id ∈ objectKeys mixedQueue,
      notFound (fun i => .ok ((fun _ => ⟨some []⟩ : String → SearchResponse) i)) id = true →
      recordable (lookupKey id mixedQueue) = true) ∧
    ((processQueue (fun i => .ok ((fun _ => ⟨some []⟩ : String → SearchResponse) i))
      mixedQueue).2 = none ∧
    (processQueue (fun i => .ok ((fun _ => ⟨some []⟩ : String → SearchResponse) i))
      mixedQueue).1 =
      (writtenRecords (fun i => .ok ((fun _ => ⟨some []⟩ : String → SearchResponse) i))
        mixedQueue).map jsonLine ∧
    (writtenRecords (fun i => .ok ((fun _ => ⟨some []⟩ : String → SearchResponse) i))
      mixedQueue).map (lookupKey "nit") =
      ((objectKeys mixedQueue).filter
        (notFound (fun i => .ok ((fun _ => ⟨some []⟩ : String → SearchResponse) i)))).map
        Val.str ∧
    (∃ idx, objectKeys mixedQueue =
        idx ++ (mixedQueue.map Prod.fst).filter (fun k => !isArrayIndex k) ∧
      idx.Sorted indexLE ∧ idx.Perm ((mixedQueue.map Prod.fst).filter isArrayIndex)) ∧
    ((∀ k ∈ mixedQueue.map Prod.fst, isArrayIndex k = false) →
      objectKeys mixedQueue = mixedQueue.map Prod.fst)) :=
  ⟨by decide, processQueue_follows_objectKeys (fun _ => ⟨some []⟩) mixedQueue (by decide)⟩

/-! ## Ingest -/

section Ingest

variable {P : Type} (JSONPath : P → Val → List Val) (args : Args P)

theorem ingest_of_docKey_some (q : DocQueue) (d : Val) (k : String)
    (h : docKey JSONPath args d = some k) :
    ingest JSONPath args q d =
      .ok (if readTruthy q k = true then q else setKey k (docSub JSONPath args d) q) := by
  unfold docKey at h
  unfold ingest docSub
  cases hid : getDocField JSONPath d args.idSourceField with
  | nil => rw [hid] at h; cases h
  | cons id rest =>
    rw [hid] at h
    simp only [] at h ⊢
    cases hk : toStr id with
    | error e => rw [hk] at h; cases h
    | ok key =>
      rw [hk] at h
      simp only [Option.some.injEq] at h
      subst h
      simp only []
      by_cases hr : readTruthy q key = true
      · simp [hr]
      · have hr1 : readTruthy q key = false := by simpa using hr
        simp [hr1]

theorem ingest_ok_cases (q q1 : DocQueue) (d : Val) (h : ingest JSONPath args q d = .ok q1) :
    (docKey JSONPath args d = none ∧ q1 = q) ∨
    ∃ k, docKey JSONPath args d = some k ∧
      q1 = if readTruthy q k = true then q else setKey k (docSub JSONPath args d) q := by
  cases hk : docKey JSONPath args d with
  | some k =>
    right
    rw [ingest_of_docKey_some JSONPath args q d k hk] at h
    exact ⟨k, rfl, (Except.ok.inj h).symm⟩
  | none =>
    left
    refine ⟨rfl, ?_⟩
    unfold docKey at hk
    unfold ingest at h
    cases hid : getDocField JSONPath d args.idSourceField with
    | nil =>
      rw [hid] at h
      exact (Except.ok.inj h).symm
    | cons id rest =>
      rw [hid] at h hk
      simp only [] at h hk
      cases hs : toStr id with
      | error e => rw [hs] at h; cases h
      | ok key => rw [hs] at hk; cases hk

theorem ingestAll_cons_ok (q q2 : DocQueue) (d : Val) (docs : List Val)
    (h : ingestAll JSONPath args q (d :: docs) = .ok q2) :
    ∃ q1, ingest JSONPath args q d = .ok q1 ∧ ingestAll JSONPath args q1 docs = .ok q2 := by
  unfold ingestAll at h
  cases hi : ingest JSONPath args q d with
  | error e => rw [hi] at h; cases h
  | ok q1 =>
    rw [hi] at h
    exact ⟨q1, rfl, h⟩

theorem ingestAll_total (docs : List Val)
    (hconv : ∀ d ∈ docs, ∀ id rest, getDocField JSONPath d args.idSourceField = id :: rest →
      ∃ k, toStr id = .ok k) :
    ∀ q, ∃ q1, ingestAll JSONPath args q docs = .ok q1 := by
  induction docs with
  | nil => intro q; exact ⟨q, rfl⟩
  | cons d docs ih =>
    intro q
    have hd : ∃ q1, ingest JSONPath args q d = .ok q1 := by
      unfold ingest
      cases hid : getDocField JSONPath d args.idSourceField with
      | nil => exact ⟨_, rfl⟩
      | cons id rest =>
        obtain ⟨k, hk⟩ := hconv d (List.mem_cons_self _ _) id rest hid
        simp only [hk]
        split_ifs <;> exact ⟨_, rfl⟩
    obtain ⟨q1, hq1⟩ := hd
    obtain ⟨q2, hq2⟩ := ih (fun d hd => hconv d (List.mem_cons_of_mem _ hd)) q1
    refine ⟨q2, ?_⟩
    rw [ingestAll, hq1]
    exact hq2

theorem readTruthy_of_hasKey {q : DocQueue} {k : String} (h : hasKey k q = true) :
    readTruthy q k = truthy (lookupKey k q) := by
  simp [readTruthy, h]

theorem readTruthy_of_not_hasKey {q : DocQueue} {k : String} (h : hasKey k q = false) :
    readTruthy q k = objectPrototypeNames.contains k := by
  simp [readTruthy, h]

theorem contains_false_of_not_mem {k : String} (hk : k ∉ objectPrototypeNames) :
    objectPrototypeNames.contains k = false := by
  simpa using hk

theorem firstTruthyOrLast_cons_truthy (v : Val) (l : List Val) (h : truthy v = true) :
    firstTruthyOrLast (v :: l) = v := by
  cases l with
  | nil => rfl
  | cons w l => simp [firstTruthyOrLast, h]

theorem firstTruthyOrLast_cons_falsy (v w : Val) (l : List Val) (h : truthy v = false) :
    firstTruthyOrLast (v :: w :: l) = firstTruthyOrLast (w :: l) := by
  simp [firstTruthyOrLast, h]

/-- The value stored under a key at the end, from the value stored at the
start and the subdocuments of the documents filed under the key. -/
theorem ingestAll_value (k : String) (hk : k ∉ objectPrototypeNames) :
    ∀ (docs : List Val) (q q2 : DocQueue), ingestAll JSONPath args q docs = .ok q2 →
      (hasKey k q = true → hasKey k q2 = true ∧
        lookupKey k q2 = firstTruthyOrLast (lookupKey k q ::
          (docs.filter (fun d => docKey JSONPath args d = some k)).map (docSub JSONPath args))) ∧
      (hasKey k q = false →
        ((docs.filter (fun d => docKey JSONPath args d = some k)) = [] → hasKey k q2 = false) ∧
        ((docs.filter (fun d => docKey JSONPath args d = some k)) ≠ [] → hasKey k q2 = true ∧
          lookupKey k q2 = firstTruthyOrLast
            ((docs.filter (fun d => docKey JSONPath args d = some k)).map
              (docSub JSONPath args)))) := by
  intro docs
  induction docs with
  | nil =>
    intro q q2 h
    have hq : q2 = q := (Except.ok.inj h).symm
    subst hq
    refine ⟨fun h1 => ⟨h1, rfl⟩, fun h1 => ⟨fun _ => h1, fun h2 => absurd rfl h2⟩⟩
  | cons d docs ih =>
    intro q q2 h
    obtain ⟨q1, hq1, hq2⟩ := ingestAll_cons_ok JSONPath args q q2 d docs h
    obtain ⟨ihA, ihB⟩ := ih q1 q2 hq2
    rcases ingest_ok_cases JSONPath args q q1 d hq1 with ⟨hnone, rfl⟩ | ⟨k1, hk1, hstep⟩
    · have hf : (decide (docKey JSONPath args d = some k)) = false := by simp [hnone]
      rw [List.filter_cons_of_neg (by simp [hf])]
      exact ⟨ihA, ihB⟩
    · by_cases hkk : k1 = k
      · subst hkk
        have hf : List.filter (fun d => decide (docKey JSONPath args d = some k1)) (d :: docs) =
            d :: List.filter (fun d => decide (docKey JSONPath args d = some k1)) docs := by
          simp [List.filter_cons, hk1]
        rw [hf]
        constructor
        · intro hhas
          rw [readTruthy_of_hasKey hhas] at hstep
          by_cases ht : truthy (lookupKey k1 q) = true
          · rw [if_pos ht] at hstep
            subst hstep
            obtain ⟨a1, a2⟩ := ihA hhas
            refine ⟨a1, ?_⟩
            rw [a2, firstTruthyOrLast_cons_truthy _ _ ht, firstTruthyOrLast_cons_truthy _ _ ht]
          · rw [if_neg ht] at hstep
            have h1 : hasKey k1 q1 = true := by rw [hstep, hasKey_setKey]; simp
            have h2 : lookupKey k1 q1 = docSub JSONPath args d := by
              rw [hstep, lookupKey_setKey]; simp
            obtain ⟨a1, a2⟩ := ihA h1
            refine ⟨a1, ?_⟩
            rw [a2, h2, List.map_cons,
              firstTruthyOrLast_cons_falsy _ _ _ (by simpa using ht)]
        · intro hhas
          rw [readTruthy_of_not_hasKey hhas, contains_false_of_not_mem hk] at hstep
          simp only [Bool.false_eq_true, if_false] at hstep
          have h1 : hasKey k1 q1 = true := by rw [hstep, hasKey_setKey]; simp
          have h2 : lookupKey k1 q1 = docSub JSONPath args d := by
            rw [hstep, lookupKey_setKey]; simp
          obtain ⟨a1, a2⟩ := ihA h1
          refine ⟨fun hc => List.noConfusion hc, fun _ => ⟨a1, ?_⟩⟩
          rw [a2, h2, List.map_cons]
      · have hf : (decide (docKey JSONPath args d = some k)) = false := by
          simp [hk1, hkk]
        rw [List.filter_cons_of_neg (by simp [hf])]
        have hne : (k1 == k) = false := by simpa using hkk
        have h1 : hasKey k q1 = hasKey k q := by
          rw [hstep]
          split_ifs
          · rfl
          · rw [hasKey_setKey, hne]; simp
        have h2 : lookupKey k q1 = lookupKey k q := by
          rw [hstep]
          split_ifs
          · rfl
          · rw [lookupKey_setKey, hne]; simp
        rw [h1, h2] at ihA
        rw [h1] at ihB
        exact ⟨ihA, ihB⟩

end Ingest

section IngestClaims

variable {P : Type} (JSONPath : P → Val → List Val) (args : Args P)

/-! ## C1 -/

/-- C1, as stated, fails: the first document with the id `"a"` has no
subdocument, and the subdocument of the second one replaces the stored
`undefined`. -/
theorem ingest_absent_first_overwritten :
    docKey memberPath idDocArgs (.obj [("id", .str "a")]) = some "a" ∧
    docSub memberPath idDocArgs (.obj [("id", .str "a")]) = .undefined ∧
    ingestAll memberPath idDocArgs []
      [.obj [("id", .str "a")], .obj [("id", .str "a"), ("doc", .obj [("name", .str "X")])]] =
      .ok [("a", .obj [("name", .str "X")])] ∧
    ingest memberPath idDocArgs [("a", .undefined)]
      (.obj [("id", .str "a"), ("doc", .obj [("name", .str "X")])]) ≠
      .ok [("a", .undefined)] := by
  decide

/-- C1, amended. For every sequence of documents whose first id matches
convert to property keys, ingest ends with a table in which every key that
is not a name of `Object.prototype` and under which at least one document is
filed holds the first subdocument match of the first such document whose
first subdocument match is truthy, or of the last such document when none is
truthy (`undefined` for a document without subdocument match).  Once the
table reads truthy under a key, a document filed under that key leaves the
table unchanged. -/
theorem ingest_first_truthy_wins (docs : List Val)
    (hconv : ∀ d ∈ docs, ∀ id rest, getDocField JSONPath d args.idSourceField = id :: rest →
      ∃ k, toStr id = .ok k) :
    ∃ q, ingestAll JSONPath args [] docs = .ok q ∧
      (∀ k, k ∉ objectPrototypeNames →
        docs.filter (fun d => docKey JSONPath args d = some k) ≠ [] →
        hasKey k q = true ∧
        lookupKey k q = firstTruthyOrLast
          ((docs.filter (fun d => docKey JSONPath args d = some k)).map
            (docSub JSONPath args))) ∧
      (∀ (q0 : DocQueue) (d : Val) (k : String), docKey JSONPath args d = some k →
        readTruthy q0 k = true → ingest JSONPath args q0 d = .ok q0) := by
  obtain ⟨q, hq⟩ := ingestAll_total JSONPath args docs hconv []
  refine ⟨q, hq, ?_, ?_⟩
  · intro k hk hne
    exact ((ingestAll_value JSONPath args k hk docs [] q hq).2 rfl).2 hne
  · intro q0 d k hk hr
    rw [ingest_of_docKey_some JSONPath args q0 d k hk, if_pos hr]

/-- The amended C1 on three documents with the same id. -/
theorem ingest_first_truthy_wins_witness :
    (∀ d ∈ repeatedDocs, ∀ id rest,
      getDocField memberPath d idDocArgs.idSourceField = id :: rest → ∃ k, toStr id = .ok k) ∧
    ∃ q, ingestAll memberPath idDocArgs [] repeatedDocs = .ok q ∧
      (∀ k, k ∉ objectPrototypeNames →
        repeatedDocs.filter (fun d => docKey memberPath idDocArgs d = some k) ≠ [] →
        hasKey k q = true ∧
        lookupKey k q = firstTruthyOrLast
          ((repeatedDocs.filter (fun d => docKey memberPath idDocArgs d = some k)).map
            (docSub memberPath idDocArgs))) ∧
      (∀ (q0 : DocQueue) (d : Val) (k : String), docKey memberPath idDocArgs d = some k →
        readTruthy q0 k = true → ingest memberPath idDocArgs q0 d = .ok q0) :=
  have hconv : ∀ d ∈ repeatedDocs, ∀ id rest,
      getDocField memberPath d idDocArgs.idSourceField = id :: rest →
      ∃ k, toStr id = .ok k := by
    intro d hd id rest h
    have hall : ∀ d ∈ repeatedDocs,
        getDocField memberPath d idDocArgs.idSourceField = [.str "a"] := by decide
    rw [hall d hd] at h
    obtain ⟨rfl, -⟩ := List.cons.inj h
    exact ⟨"a", rfl⟩
  ⟨hconv, ingest_first_truthy_wins memberPath idDocArgs repeatedDocs hconv⟩

/-! ## C3 -/

theorem hasKey_iff_mem (k : String) (q : List (String × Val)) :
    hasKey k q = true ↔ k ∈ q.map Prod.fst := by
  induction q with
  | nil => simp [hasKey]
  | cons kv q ih =>
    rw [hasKey_cons, Bool.or_eq_true, ih, List.map_cons, List.mem_cons, beq_iff_eq]
    exact ⟨fun h => h.imp Eq.symm id, fun h => h.imp Eq.symm id⟩

theorem keys_setKey (k : String) (v : Val) (q : List (String × Val)) :
    (setKey k v q).map Prod.fst =
      if hasKey k q = true then q.map Prod.fst else q.map Prod.fst ++ [k] := by
  induction q with
  | nil => simp [setKey, hasKey]
  | cons kv q ih =>
    simp only [setKey]
    by_cases h : (kv.1 == k) = true
    · have h1 : kv.1 = k := by simpa using h
      rw [if_pos h, hasKey_cons, h]
      simp [h1]
    · have h1 : (kv.1 == k) = false := by simpa using h
      rw [if_neg h, hasKey_cons, h1, List.map_cons, ih]
      simp only [Bool.false_or]
      split_ifs <;> simp

theorem step_invariant (q : DocQueue) (k : String) (v : Val)
    (h1 : NoPrototypeName q) (h2 : (q.map Prod.fst).Nodup) :
    NoPrototypeName (if readTruthy q k = true then q else setKey k v q) ∧
    ((if readTruthy q k = true then q else setKey k v q).map Prod.fst).Nodup := by
  by_cases hr : readTruthy q k = true
  · rw [if_pos hr]
    exact ⟨h1, h2⟩
  · rw [if_neg hr]
    by_cases hh : hasKey k q = true
    · constructor
      · intro k1 hk1
        rw [hasKey_setKey, h1 k1 hk1]
        have : k ≠ k1 := by
          rintro rfl
          rw [h1 k hk1] at hh
          cases hh
        simpa using this
      · rw [keys_setKey, if_pos hh]
        exact h2
    · have hh1 : hasKey k q = false := by simpa using hh
      rw [readTruthy_of_not_hasKey hh1] at hr
      have hk : k ∉ objectPrototypeNames := by simpa using hr
      constructor
      · intro k1 hk1
        rw [hasKey_setKey, h1 k1 hk1]
        have : k ≠ k1 := by
          rintro rfl
          exact hk hk1
        simpa using this
      · rw [keys_setKey, if_neg hh]
        refine List.Nodup.append h2 (List.nodup_singleton k) ?_
        intro a ha hb
        rw [List.mem_singleton] at hb
        subst hb
        exact hh ((hasKey_iff_mem a q).mpr ha)

theorem ingestAll_invariant :
    ∀ (docs : List Val) (q q2 : DocQueue), NoPrototypeName q → (q.map Prod.fst).Nodup →
      ingestAll JSONPath args q docs = .ok q2 →
      NoPrototypeName q2 ∧ (q2.map Prod.fst).Nodup := by
  intro docs
  induction docs with
  | nil =>
    intro q q2 h1 h2 h
    have hq : q2 = q := (Except.ok.inj h).symm
    subst hq
    exact ⟨h1, h2⟩
  | cons d docs ih =>
    intro q q2 h1 h2 h
    obtain ⟨q1, hq1, hq2⟩ := ingestAll_cons_ok JSONPath args q q2 d docs h
    rcases ingest_ok_cases JSONPath args q q1 d hq1 with ⟨-, rfl⟩ | ⟨k1, -, hstep⟩
    · exact ih q1 q2 h1 h2 hq2
    · obtain ⟨s1, s2⟩ := step_invariant q k1 (docSub JSONPath args d) h1 h2
      rw [← hstep] at s1 s2
      exact ih q1 q2 s1 s2 hq2

theorem filterMap_docKey_length_le (docs : List Val) :
    (docs.filterMap (docKey JSONPath args)).length ≤
      (docs.filter (fun d => !(getDocField JSONPath d args.idSourceField).isEmpty)).length := by
  induction docs with
  | nil => simp
  | cons d docs ih =>
    cases hk : docKey JSONPath args d with
    | none =>
      rw [List.filterMap_cons_none hk, List.filter_cons]
      split_ifs
      · exact le_trans ih (Nat.le_succ _)
      · exact ih
    | some k =>
      have hne : (!(getDocField JSONPath d args.idSourceField).isEmpty) = true := by
        unfold docKey at hk
        cases hid : getDocField JSONPath d args.idSourceField with
        | nil => rw [hid] at hk; cases hk
        | cons id rest => rfl
      rw [List.filterMap_cons_some hk, List.filter_cons, if_pos hne]
      simp only [List.length_cons]
      omega

/-- The keys of the table after ingest: the property keys of the documents
that are no names of `Object.prototype`, each once. -/
theorem ingestAll_keys_perm (docs : List Val) (q : DocQueue)
    (h : ingestAll JSONPath args [] docs = .ok q) :
    (q.map Prod.fst).Perm
      (((docs.filterMap (docKey JSONPath args)).filter
        (fun k => !objectPrototypeNames.contains k)).dedup) := by
  have hinv := ingestAll_invariant JSONPath args docs [] q
    (fun _ _ => rfl) List.nodup_nil h
  rw [List.perm_ext_iff_of_nodup hinv.2 (List.nodup_dedup _)]
  intro k
  rw [List.mem_dedup, List.mem_filter, List.mem_filterMap, ← hasKey_iff_mem]
  by_cases hk : k ∈ objectPrototypeNames
  · rw [hinv.1 k hk]
    simp [hk]
  · have hv := (ingestAll_value JSONPath args k hk docs [] q h).2 rfl
    have hc : (!objectPrototypeNames.contains k) = true := by simpa using hk
    constructor
    · intro hh
      have hne : docs.filter (fun d => docKey JSONPath args d = some k) ≠ [] := by
        intro he
        rw [hv.1 he] at hh
        cases hh
      obtain ⟨d, hd⟩ := List.exists_mem_of_ne_nil _ hne
      rw [List.mem_filter] at hd
      exact ⟨⟨d, hd.1, by simpa using hd.2⟩, hc⟩
    · rintro ⟨⟨d, hd, hdk⟩, -⟩
      have hne : docs.filter (fun d => docKey JSONPath args d = some k) ≠ [] := by
        intro he
        have : d ∈ docs.filter (fun d => docKey JSONPath args d = some k) := by
          rw [List.mem_filter]
          exact ⟨hd, by simpa using hdk⟩
        rw [he] at this
        cases this
      exact (hv.2 hne).1

/-- On string ids the property keys are the ids themselves. -/
theorem firstIds_eq_map_docKey (docs : List Val)
    (hstr : ∀ d ∈ docs, ∀ id rest, getDocField JSONPath d args.idSourceField = id :: rest →
      ∃ s, id = .str s) :
    docs.filterMap (fun d => (getDocField JSONPath d args.idSourceField).head?) =
      (docs.filterMap (docKey JSONPath args)).map Val.str := by
  induction docs with
  | nil => rfl
  | cons d docs ih =>
    have ih1 := ih (fun d hd => hstr d (List.mem_cons_of_mem _ hd))
    cases hid : getDocField JSONPath d args.idSourceField with
    | nil =>
      have h1 : docKey JSONPath args d = none := by simp [docKey, hid]
      have h2 : (getDocField JSONPath d args.idSourceField).head? = none := by
        rw [hid]
        rfl
      simp only [List.filterMap_cons, h1, h2]
      exact ih1
    | cons id rest =>
      obtain ⟨t, rfl⟩ := hstr d (List.mem_cons_self _ _) id rest hid
      have h1 : docKey JSONPath args d = some t := by simp [docKey, hid, toStr]
      have h2 : (getDocField JSONPath d args.idSourceField).head? = some (Val.str t) := by
        rw [hid]
        rfl
      simp only [List.filterMap_cons, h1, h2, List.map_cons, ih1]

/-- C3, as stated, fails: the number `1` and the string `"1"` are two
distinct id values filed under one key; and the id `"constructor"` is one
distinct value of one document with an id match, for which the table has no
key. -/
theorem docQueue_keys_fewer_than_ids :
    (ingestAll memberPath idDocArgs []
        [.obj [("id", .num "1"), ("doc", .obj [("name", .str "X")])],
          .obj [("id", .str "1"), ("doc", .obj [("name", .str "Y")])]] =
        .ok [("1", .obj [("name", .str "X")])] ∧
      (objectKeys [("1", Val.obj [("name", .str "X")])]).length = 1 ∧
      (([Val.obj [("id", .num "1"), ("doc", .obj [("name", .str "X")])],
          .obj [("id", .str "1"), ("doc", .obj [("name", .str "Y")])]].filterMap
        (fun d => (getDocField memberPath d idDocArgs.idSourceField).head?)).dedup).length
        = 2) ∧
    (ingestAll memberPath idDocArgs []
        [.obj [("id", .str "constructor"), ("doc", .obj [("name", .str "X")])]] = .ok [] ∧
      (objectKeys ([] : DocQueue)).length = 0 ∧
      (([Val.obj [("id", .str "constructor"), ("doc", .obj [("name", .str "X")])]].filterMap
        (fun d => (getDocField memberPath d idDocArgs.idSourceField).head?)).dedup).length
        = 1) := by
  decide

/-- C3, amended. For every input whose first id matches convert to property
keys, none of which is a name of `Object.prototype`, the keys of the table
after ingest are, each once, the property keys of the documents with an id
match; their number is the number of those distinct keys (the number of
distinct id values when every id is a string), and is at most the number of
documents with a non-empty id match. -/
theorem docQueue_size (docs : List Val)
    (hconv : ∀ d ∈ docs, ∀ id rest, getDocField JSONPath d args.idSourceField = id :: rest →
      ∃ k, toStr id = .ok k)
    (hproto : ∀ d ∈ docs, ∀ k, docKey JSONPath args d = some k → k ∉ objectPrototypeNames) :
    ∃ q, ingestAll JSONPath args [] docs = .ok q ∧
      (objectKeys q).Perm ((docs.filterMap (docKey JSONPath args)).dedup) ∧
      (objectKeys q).length = ((docs.filterMap (docKey JSONPath args)).dedup).length ∧
      ((∀ d ∈ docs, ∀ id rest, getDocField JSONPath d args.idSourceField = id :: rest →
          ∃ s, id = .str s) →
        (objectKeys q).length =
          ((docs.filterMap
            (fun d => (getDocField JSONPath d args.idSourceField).head?)).dedup).length) ∧
      (objectKeys q).length ≤
        (docs.filter (fun d => !(getDocField JSONPath d args.idSourceField).isEmpty)).length := by
  obtain ⟨q, hq⟩ := ingestAll_total JSONPath args docs hconv []
  have hfilter : (docs.filterMap (docKey JSONPath args)).filter
      (fun k => !objectPrototypeNames.contains k) = docs.filterMap (docKey JSONPath args) := by
    rw [List.filter_eq_self]
    intro k hk
    obtain ⟨d, hd, hdk⟩ := List.mem_filterMap.mp hk
    simpa using hproto d hd k hdk
  have hperm := (objectKeys_perm q).trans (ingestAll_keys_perm JSONPath args docs q hq)
  rw [hfilter] at hperm
  refine ⟨q, hq, hperm, hperm.length_eq, ?_, ?_⟩
  · intro hstr
    rw [hperm.length_eq, firstIds_eq_map_docKey JSONPath args docs hstr,
      List.dedup_map_of_injective (fun a b h => Val.str.inj h), List.length_map]
  · rw [hperm.length_eq]
    exact le_trans (List.Sublist.length_le (List.dedup_sublist _))
      (filterMap_docKey_length_le JSONPath args docs)

/-- The amended C3 on three documents with the same id. -/
theorem docQueue_size_witness :
    (∀ d ∈ repeatedDocs, ∀ id rest,
      getDocField memberPath d idDocArgs.idSourceField = id :: rest → ∃ k, toStr id = .ok k) ∧
    (∀ d ∈ repeatedDocs, ∀ k, docKey memberPath idDocArgs d = some k →
      k ∉ objectPrototypeNames) ∧
    ∃ q, ingestAll memberPath idDocArgs [] repeatedDocs = .ok q ∧
      (objectKeys q).Perm ((repeatedDocs.filterMap (docKey memberPath idDocArgs)).dedup) ∧
      (objectKeys q).length =
        ((repeatedDocs.filterMap (docKey memberPath idDocArgs)).dedup).length ∧
      ((∀ d ∈ repeatedDocs, ∀ id rest,
          getDocField memberPath d idDocArgs.idSourceField = id :: rest → ∃ s, id = .str s) →
        (objectKeys q).length =
          ((repeatedDocs.filterMap
            (fun d => (getDocField memberPath d idDocArgs.idSourceField).head?)).dedup).length) ∧
      (objectKeys q).length ≤
        (repeatedDocs.filter
          (fun d => !(getDocField memberPath d idDocArgs.idSourceField).isEmpty)).length :=
  have hconv : ∀ d ∈ repeatedDocs, ∀ id rest,
      getDocField memberPath d idDocArgs.idSourceField = id :: rest →
      ∃ k, toStr id = .ok k := by
    intro d hd id rest h
    have hall : ∀ d ∈ repeatedDocs,
        getDocField memberPath d idDocArgs.idSourceField = [.str "a"] := by decide
    rw [hall d hd] at h
    obtain ⟨rfl, -⟩ := List.cons.inj h
    exact ⟨"a", rfl⟩
  have hproto : ∀ d ∈ repeatedDocs, ∀ k, docKey memberPath idDocArgs d = some k →
      k ∉ objectPrototypeNames := by
    intro d hd k h
    have hall : ∀ d ∈ repeatedDocs, docKey memberPath idDocArgs d = some "a" := by decide
    rw [hall d hd] at h
    obtain rfl := Option.some.inj h
    decide
  ⟨hconv, hproto, docQueue_size memberPath idDocArgs repeatedDocs hconv hproto⟩

end IngestClaims

end SociedadEntityExtract
